import Mathlib

/-!
# Finance tracker: credential store, ledger lists and their files

A shallow embedding of `finance_tracker.c`.  Every C function that the
properties below talk about is a Lean function of the same name acting on
explicit state: the bytes waiting on standard input, the file system, and the
four globals (`incomeList`, `expenseList`, `currentIncome`, `currentExpense`).

Conventions of the embedding.

* A byte is a natural number below 256.  A value of C type `char *` that is
  used as a string is the list of its bytes before the terminating NUL.
* The target is the x86-64 System V ABI (Linux, gcc/clang): `unsigned int`
  has 32 bits, `double` is IEEE-754 binary64 stored little endian, pointers
  have 8 bytes and `struct Node` is laid out as `date` at 0, `amount` at 32,
  `category` at 40, `next` at 96, size 104.
* Whether plain `char` is signed is left to the implementation by the C
  standard and changes what `hashPassword` computes; it is the parameter
  `signedChar` (true on x86-64).
* A `double` is represented by its 64-bit pattern; `f64Add`, `f64Sub` and
  `f64Lt` are the IEEE-754 operations (round to nearest, ties to even).
* Text written to standard output or standard error is not part of the state.
* `malloc` returns a block (it does not fail); the block's previous content is
  an explicit argument because the program writes it to disk.  Opening a file
  for writing or appending succeeds; opening for reading fails exactly when the
  file does not exist.
* `exit` is the result `none`.
* `scanf("%lf", ..)` belongs to the C library: it is the parameter `scanLf`,
  mapping the pending input to the converted value (if any) and the input left.
-/

namespace FinanceTracker

/-! ## Constants of the program -/

def MAX_USERNAME_LEN : Nat := 32
def MAX_PASSWORD_LEN : Nat := 32
def MAX_LINE_LEN : Nat := 256
def MAX_CATEGORY_LEN : Nat := 50
def MAX_DATE_LEN : Nat := 30
def USER_FILE : String := "users.dat"
def RECORD_FILE : String := "record.bin"
def INCOME_FILE : String := "myincome.bin"
def EXPENSE_FILE : String := "myexpense.bin"

/-! ## Files and the C library -/

/-- The file system: the content of each file that exists. -/
abbrev FileSystem := String → Option (List Nat)

/-- The file system in which no file exists. -/
def noFiles : FileSystem := fun _ => none

/-- Replace (or create) the file `name` with content `bytes`. -/
def FileSystem.write (fs : FileSystem) (name : String) (bytes : List Nat) : FileSystem :=
  fun n => if n = name then some bytes else fs n

/-- The string held in a character buffer: the bytes before the first NUL. -/
def cstr (buf : List Nat) : List Nat := buf.takeWhile (fun b => b ≠ 0)

/-- The characters `fgets` stores when at most `k` more fit: it stops after a
newline, at end of input, or when `k` bytes have been read.  The second
component is the input left unread. -/
def fgetsAux : Nat → List Nat → List Nat × List Nat
  | 0, s => ([], s)
  | _ + 1, [] => ([], [])
  | k + 1, b :: s =>
    if b = 10 then ([10], s)
    else ((b :: (fgetsAux k s).1), (fgetsAux k s).2)

/-- The C function `fgets(buffer, size, stream)`: `none` at end of input (the C function
returns NULL), otherwise the bytes stored and the input left. -/
def fgets (size : Nat) (input : List Nat) : Option (List Nat × List Nat) :=
  if input = [] then none else some (fgetsAux (size - 1) input)

/-- The C function `secureInput(buffer, size)`: one `fgets` from standard input, cut at the
first newline; `none` is `exit(EXIT_FAILURE)`. -/
def secureInput (size : Nat) (stdin : List Nat) : Option (List Nat × List Nat) :=
  match fgets size stdin with
  | none => none
  | some (buf, rest) => some ((cstr buf).takeWhile (fun b => b ≠ 10), rest)

/-- The C function `clearStdin()`: discard input up to and including the next newline. -/
def clearStdin (stdin : List Nat) : List Nat :=
  (stdin.dropWhile (fun b => b ≠ 10)).drop 1

/-- The C function `strcpy(dst, src)` seen on the destination array: the string, its
terminator, and the bytes of the array that are not overwritten. -/
def strcpy (dst src : List Nat) : List Nat :=
  src ++ 0 :: dst.drop (src.length + 1)

/-- C `isspace` in the "C" locale. -/
def isSpace (b : Nat) : Bool :=
  b = 32 || b = 9 || b = 10 || b = 11 || b = 12 || b = 13

/-- The digits printed by `%u`, most significant first, as ASCII codes. -/
def utoaAux : Nat → Nat → List Nat → List Nat
  | 0, _, acc => acc
  | f + 1, n, acc =>
    if n < 10 then (48 + n) :: acc
    else utoaAux f (n / 10) ((48 + n % 10) :: acc)

/-- The output of `sprintf(buf, "%u", n)` for a 32-bit `n` (at most ten digits). -/
def utoa (n : Nat) : List Nat := utoaAux 10 n []

/-! ## The password checksum -/

/-- The value of a `char` holding byte `b` after conversion to `unsigned int`.
Where plain `char` is signed (`signedChar`, as on x86-64), a byte from 128 on is
a negative number and wraps modulo 2^32; where it is unsigned the value is `b`. -/
def charToUInt (signedChar : Bool) (b : Nat) : Nat :=
  if signedChar = true ∧ 128 ≤ b then b + 2 ^ 32 - 256 else b

/-- One iteration of the loop: `hash = ((hash << 5) + hash) + password[i]` in
32-bit unsigned arithmetic. -/
def hashStep (signedChar : Bool) (hash b : Nat) : Nat :=
  (((hash * 32) % 2 ^ 32 + hash) % 2 ^ 32 + charToUInt signedChar b) % 2 ^ 32

/-- The C function `hashPassword(password, hashed)`: the content of `hashed` afterwards. -/
def hashPassword (signedChar : Bool) (password : List Nat) : List Nat :=
  utoa (password.foldl (hashStep signedChar) 5381)

/-- The reference checksum in the words of the specification: `h = 5381`, then
`h = (h * 33 + b) mod 2^32` for each byte taken as an unsigned value. -/
def referenceChecksum (password : List Nat) : Nat :=
  password.foldl (fun h b => (h * 33 + b) % 2 ^ 32) 5381

/-! ## The credential store -/

/-- The C expression `sscanf(line, "%31[^:]:%31s", storedUser, storedHash) == 2`: the two
fields when both conversions succeed.  `%31[^:]` needs at least one byte that
is not a colon and takes at most 31; the colon must follow; `%31s` skips white
space and needs at least one byte that is not white space. -/
def sscanfCredential (line : List Nat) : Option (List Nat × List Nat) :=
  let s := cstr line
  let user := (s.takeWhile (fun b => b ≠ 58)).take 31
  if user = [] then none
  else
    match s.drop user.length with
    | 58 :: s2 =>
      let h := ((s2.dropWhile isSpace).takeWhile (fun b => !isSpace b)).take 31
      if h = [] then none else some (user, h)
    | _ => none

/-- The C function `registerUser()`: reads the user name and the password and appends
`username:checksum\n` to the credential file.  Returns the input left and the
new file system. -/
def registerUser (signedChar : Bool) (stdin : List Nat) (fs : FileSystem) :
    Option (List Nat × FileSystem) :=
  match secureInput MAX_USERNAME_LEN stdin with
  | none => none
  | some (username, s1) =>
    match secureInput MAX_PASSWORD_LEN s1 with
    | none => none
    | some (password, s2) =>
      let hashed := hashPassword signedChar password
      some (s2, fs.write USER_FILE
        (((fs USER_FILE).getD []) ++ (username ++ 58 :: hashed ++ [10])))

/-- The `while (fgets(line, sizeof(line), file))` loop of `loginUser`.  Each
turn consumes at least one byte of the file, so `fuel` equal to the length of
the file is never used up before end of file. -/
def loginLoop (username hashed : List Nat) : Nat → List Nat → Nat
  | 0, _ => 0
  | fuel + 1, file =>
    match fgets MAX_LINE_LEN file with
    | none => 0
    | some (line, rest) =>
      match sscanfCredential line with
      | some (storedUser, storedHash) =>
        if username = storedUser ∧ hashed = storedHash then 1
        else loginLoop username hashed fuel rest
      | none => loginLoop username hashed fuel rest

/-- The C function `loginUser()`: the value returned (1 or 0) and the input left. -/
def loginUser (signedChar : Bool) (stdin : List Nat) (fs : FileSystem) :
    Option (Nat × List Nat) :=
  match secureInput MAX_USERNAME_LEN stdin with
  | none => none
  | some (username, s1) =>
    match secureInput MAX_PASSWORD_LEN s1 with
    | none => none
    | some (password, s2) =>
      let hashed := hashPassword signedChar password
      match fs USER_FILE with
      | none => some (0, s2)
      | some file => some (loginLoop username hashed file.length file, s2)

/-- The credential file after a series of `registerUser` calls, one per
element of `inputs` (the bytes on standard input during that call). -/
def registerAll (signedChar : Bool) (inputs : List (List Nat)) (fs : FileSystem) :
    FileSystem :=
  inputs.foldl (fun fs s =>
    match registerUser signedChar s fs with
    | some (_, fs1) => fs1
    | none => fs) fs

/-- The user name that a `registerUser` or `loginUser` call reads from `stdin`. -/
def usernameRead (stdin : List Nat) : Option (List Nat) :=
  (secureInput MAX_USERNAME_LEN stdin).map Prod.fst

/-- The content of a text file whose lines are `ls`, each ended by a newline. -/
def joinLines : List (List Nat) → List Nat
  | [] => []
  | l :: ls => l ++ 10 :: joinLines ls

/-- The line (without its newline) that `registerUser` writes for a user name
and a password. -/
def credentialLine (signedChar : Bool) (username password : List Nat) : List Nat :=
  username ++ 58 :: hashPassword signedChar password

/-! ## IEEE-754 binary64 on bit patterns -/

/-- Sign bit of a binary64 pattern. -/
def f64Sign (x : Nat) : Nat := x / 2 ^ 63 % 2

/-- Biased exponent field of a binary64 pattern. -/
def f64Exp (x : Nat) : Nat := x / 2 ^ 52 % 2048

/-- Fraction field of a binary64 pattern. -/
def f64Frac (x : Nat) : Nat := x % 2 ^ 52

/-- The pattern is a NaN. -/
def f64IsNaN (x : Nat) : Bool := f64Exp x = 2047 && f64Frac x != 0

/-- The pattern is an infinity. -/
def f64IsInf (x : Nat) : Bool := f64Exp x = 2047 && f64Frac x = 0

/-- Magnitude in units of 2^-1074 (an infinity counts as 2^2098, above every
finite magnitude). -/
def f64Mag (x : Nat) : Nat :=
  if f64Exp x = 0 then f64Frac x else (2 ^ 52 + f64Frac x) * 2 ^ (f64Exp x - 1)

/-- Signed value in units of 2^-1074. -/
def f64ToInt (x : Nat) : Int :=
  if f64Sign x = 1 then -(f64Mag x : Int) else (f64Mag x : Int)

/-- C `x < y` on doubles: false when either operand is a NaN. -/
def f64Lt (x y : Nat) : Bool :=
  !f64IsNaN x && !f64IsNaN y && decide (f64ToInt x < f64ToInt y)

/-- C `x >= y` on doubles: false when either operand is a NaN. -/
def f64Ge (x y : Nat) : Bool :=
  !f64IsNaN x && !f64IsNaN y && decide (f64ToInt y ≤ f64ToInt x)

/-- Number of binary digits of `n` (for `n < 2 ^ fuel`). -/
def bitLength : Nat → Nat → Nat
  | 0, _ => 0
  | fuel + 1, n => if n = 0 then 0 else 1 + bitLength fuel (n / 2)

/-- The pattern (without sign) of the double nearest to `m * 2^-1074`, ties to
even, overflowing to infinity. -/
def f64Round (m : Nat) : Nat :=
  if m < 2 ^ 53 then m
  else
    let sh := bitLength 2200 m - 53
    let q := m / 2 ^ sh
    let r := m % 2 ^ sh
    let half := 2 ^ (sh - 1)
    let q1 := if half < r ∨ (r = half ∧ q % 2 = 1) then q + 1 else q
    let bits := sh * 2 ^ 52 + q1
    if 2047 * 2 ^ 52 ≤ bits then 2047 * 2 ^ 52 else bits

/-- A NaN operand made quiet, as the SSE2 instructions return it. -/
def f64Quiet (x : Nat) : Nat := if x / 2 ^ 51 % 2 = 0 then x + 2 ^ 51 else x

/-- The same value with the sign bit flipped. -/
def f64Neg (x : Nat) : Nat := if f64Sign x = 1 then x - 2 ^ 63 else x + 2 ^ 63

/-- C `x + y` on doubles. -/
def f64Add (x y : Nat) : Nat :=
  if f64IsNaN x then f64Quiet x
  else if f64IsNaN y then f64Quiet y
  else if f64IsInf x then
    (if f64IsInf y ∧ f64Sign x ≠ f64Sign y then 0xFFF8000000000000 else x)
  else if f64IsInf y then y
  else
    let s := f64ToInt x + f64ToInt y
    if s = 0 then (if f64Sign x = 1 ∧ f64Sign y = 1 then 2 ^ 63 else 0)
    else if s < 0 then 2 ^ 63 + f64Round s.natAbs
    else f64Round s.natAbs

/-- C `x - y` on doubles. -/
def f64Sub (x y : Nat) : Nat :=
  if f64IsNaN x then f64Quiet x
  else if f64IsNaN y then f64Quiet y
  else f64Add x (f64Neg y)

/-- The double equal to the natural number `n` (rounded when `n` needs more
than 53 bits). -/
def f64OfNat (n : Nat) : Nat := f64Round (n * 2 ^ 1074)

/-- ASCII decimal digit. -/
def isDigit (b : Nat) : Bool := decide (48 ≤ b) && decide (b ≤ 57)

/-- Value of a run of ASCII digits. -/
def digitsValue (ds : List Nat) : Nat := ds.foldl (fun v d => 10 * v + (d - 48)) 0

/-- The `%lf` conversion of `scanf` on the inputs it is evaluated on below: white
space, an optional sign and a run of decimal digits that is not continued by a
fraction or an exponent.  Without a digit the conversion fails.  It is one
possible value of the parameter `scanLf`, used to run the program on concrete
inputs. -/
def scanfDecimal (s : List Nat) : Option Nat × List Nat :=
  let s1 := s.dropWhile isSpace
  let neg := s1.head? = some 45
  let s2 := if s1.head? = some 45 ∨ s1.head? = some 43 then s1.drop 1 else s1
  let ds := s2.takeWhile isDigit
  if ds = [] then (none, s2)
  else (some ((if neg then 2 ^ 63 else 0) + f64OfNat (digitsValue ds)), s2.drop ds.length)

/-! ## Ledger entries in memory and on disk -/

/-- The object representation of a `struct Node` without its `next` pointer:
the two character arrays with everything they hold (string, terminator and
whatever follows), the bit pattern of `amount`, and the padding bytes.  The
links of the list are the order of the Lean list. -/
structure Node where
  date : List Nat
  pad1 : List Nat
  amount : Nat
  category : List Nat
  pad2 : List Nat
  deriving DecidableEq

/-- The C expression `sizeof(struct Node)`. -/
def sizeofNode : Nat := 104

/-- The C expression `sizeof(struct Record)`. -/
def sizeofRecord : Nat := 16

/-- The sizes that the C types give to the parts of a node. -/
def Node.WF (n : Node) : Prop :=
  n.date.length = MAX_DATE_LEN ∧ n.pad1.length = 2 ∧ n.amount < 2 ^ 64 ∧
  n.category.length = MAX_CATEGORY_LEN ∧ n.pad2.length = 6

/-- What an entry says: its date string, its amount and its category string. -/
def Node.entry (n : Node) : List Nat × Nat × List Nat :=
  (cstr n.date, n.amount, cstr n.category)

/-- The content of the three data members of a node. -/
def Node.fields (n : Node) : List Nat × Nat × List Nat :=
  (n.date, n.amount, n.category)

/-- The `k` low bytes of `x`, least significant first. -/
def toLE : Nat → Nat → List Nat
  | 0, _ => []
  | k + 1, x => x % 256 :: toLE k (x / 256)

/-- The number whose little-endian bytes are `bs`. -/
def ofLE : List Nat → Nat
  | [] => 0
  | b :: bs => b + 256 * ofLE bs

/-- The 104 bytes `fwrite(ptr, sizeof(struct Node), 1, fp)` writes for a node
whose `next` member has the object representation `next`. -/
def nodeBytes (n : Node) (next : List Nat) : List Nat :=
  n.date ++ n.pad1 ++ toLE 8 n.amount ++ n.category ++ n.pad2 ++ next

/-- The node that `fread(&temp, sizeof(struct Node), 1, fp)` followed by
`*node = temp; node->next = NULL;` builds from 104 bytes. -/
def decodeNode (chunk : List Nat) : Node :=
  { date := chunk.take 30
    pad1 := (chunk.drop 30).take 2
    amount := ofLE ((chunk.drop 32).take 8)
    category := (chunk.drop 40).take 50
    pad2 := (chunk.drop 90).take 6 }

/-- The bytes written by the loop of `saveToFile`, starting at the node with
index `i`; `ptr j` is the object representation of the `next` pointer of the
node with index `j` (an address, or NULL in the last node). -/
def writeNodes (ptr : Nat → List Nat) : Nat → List Node → List Nat
  | _, [] => []
  | i, n :: ns => nodeBytes n (ptr i) ++ writeNodes ptr (i + 1) ns

/-- The C function `saveToFile(list, filename)`: the file is truncated and every node is
written in list order. -/
def saveToFile (ptr : Nat → List Nat) (list : List Node) (filename : String)
    (fs : FileSystem) : FileSystem :=
  fs.write filename (writeNodes ptr 0 list)

/-- The `while (fread(&temp, sizeof(struct Node), 1, fp))` loop of
`loadFromFile`: `fread` returns 1 while a whole record is left.  Each turn
consumes 104 bytes, so `fuel` equal to the length of the file is never used up
while a record is left. -/
def loadLoop : Nat → List Nat → List Node
  | 0, _ => []
  | fuel + 1, bytes =>
    if sizeofNode ≤ bytes.length then
      decodeNode (bytes.take sizeofNode) :: loadLoop fuel (bytes.drop sizeofNode)
    else []

/-- The C function `loadFromFile(&list, filename)`: the new value of `list`; it keeps its old
value `cur` when the file does not exist. -/
def loadFromFile (cur : List Node) (filename : String) (fs : FileSystem) : List Node :=
  match fs filename with
  | none => cur
  | some bytes => loadLoop bytes.length bytes

/-! ## The ledger -/

/-- The state of the process and of its environment. -/
structure World where
  stdin : List Nat
  fs : FileSystem
  incomeList : List Node
  expenseList : List Node
  currentIncome : Nat
  currentExpense : Nat

/-- The walk to the last node in `addEntry`, followed by `ptr->next = newNode`
(or `*list = newNode` for an empty list). -/
def appendNode : List Node → Node → List Node
  | [], newNode => [newNode]
  | n :: ns, newNode => n :: appendNode ns newNode

/-- The C function `addEntry(&list, &total, type)`: the new list, the new total and the
input left.  `blk` is the content of the block returned by `malloc`. -/
def addEntry (scanLf : List Nat → Option Nat × List Nat) (blk : Node)
    (list : List Node) (total : Nat) (stdin : List Nat) :
    Option (List Node × Nat × List Nat) :=
  match secureInput MAX_DATE_LEN stdin with
  | none => none
  | some (date, s1) =>
    match scanLf s1 with
    | (none, s2) => some (list, total, clearStdin s2)
    | (some amount, s2) =>
      if f64Lt amount 0 then some (list, total, clearStdin s2)
      else
        match secureInput MAX_CATEGORY_LEN (clearStdin s2) with
        | none => none
        | some (category, s3) =>
          let newNode : Node :=
            { blk with
              date := strcpy blk.date date
              category := strcpy blk.category category
              amount := amount }
          some (appendNode list newNode, f64Add total amount, s3)

/-- The C function `saveIncome()`. -/
def saveIncome (ptr : Nat → List Nat) (w : World) : World :=
  { w with fs := saveToFile ptr w.incomeList INCOME_FILE w.fs }

/-- The C function `saveExpense()`. -/
def saveExpense (ptr : Nat → List Nat) (w : World) : World :=
  { w with fs := saveToFile ptr w.expenseList EXPENSE_FILE w.fs }

/-- The C function `loadIncome()`. -/
def loadIncome (w : World) : World :=
  { w with incomeList := loadFromFile w.incomeList INCOME_FILE w.fs }

/-- The C function `loadExpense()`. -/
def loadExpense (w : World) : World :=
  { w with expenseList := loadFromFile w.expenseList EXPENSE_FILE w.fs }

/-- The C function `addIncome()`: `addEntry` on the income list and total, then `saveIncome`
(also when the entry was rejected). -/
def addIncome (scanLf : List Nat → Option Nat × List Nat) (blk : Node)
    (ptr : Nat → List Nat) (w : World) : Option World :=
  match addEntry scanLf blk w.incomeList w.currentIncome w.stdin with
  | none => none
  | some (list, total, s) =>
    some (saveIncome ptr { w with incomeList := list, currentIncome := total, stdin := s })

/-- The C function `addExpense()`: `addEntry` on the expense list and total, then `saveExpense`. -/
def addExpense (scanLf : List Nat → Option Nat × List Nat) (blk : Node)
    (ptr : Nat → List Nat) (w : World) : Option World :=
  match addEntry scanLf blk w.expenseList w.currentExpense w.stdin with
  | none => none
  | some (list, total, s) =>
    some (saveExpense ptr { w with expenseList := list, currentExpense := total, stdin := s })

/-- The C function `saveRecord()`: the two totals, 8 bytes each. -/
def saveRecord (w : World) : World :=
  { w with fs := w.fs.write RECORD_FILE (toLE 8 w.currentIncome ++ toLE 8 w.currentExpense) }

/-- The C function `loadRecord()`: nothing happens when the file does not exist; the result
of `fread` is not checked, so a file shorter than a record leaves in the totals
the indeterminate content `uninit` of the local variable `r`. -/
def loadRecord (uninit : Nat × Nat) (w : World) : World :=
  match w.fs RECORD_FILE with
  | none => w
  | some bytes =>
    if sizeofRecord ≤ bytes.length then
      { w with
        currentIncome := ofLE (bytes.take 8)
        currentExpense := ofLE ((bytes.drop 8).take 8) }
    else { w with currentIncome := uninit.1, currentExpense := uninit.2 }

/-- The balance shown by `showFinanceMenu`: `currentIncome - currentExpense`. -/
def currentBalance (w : World) : Nat := f64Sub w.currentIncome w.currentExpense

/-- A process that has just started: the initial values of the globals, then
the three loads at the top of `main`. -/
def startProcess (uninit : Nat × Nat) (stdin : List Nat) (fs : FileSystem) : World :=
  loadExpense (loadIncome (loadRecord uninit
    { stdin := stdin, fs := fs, incomeList := [], expenseList := [],
      currentIncome := 0, currentExpense := 0 }))

/-- The sum of a list of doubles, added from left to right starting from 0. -/
def f64Sum (xs : List Nat) : Nat := xs.foldl f64Add 0

/-! ## Sequences of calls and the values they read -/

/-- The date, the amount and the category that the three input calls of one
`addEntry` deliver from `stdin`, with the input left; `none` when a string
cannot be read or the amount conversion fails. -/
def readEntry (scanLf : List Nat → Option Nat × List Nat) (stdin : List Nat) :
    Option ((List Nat × Nat × List Nat) × List Nat) :=
  match secureInput MAX_DATE_LEN stdin with
  | none => none
  | some (date, s1) =>
    match scanLf s1 with
    | (none, _) => none
    | (some amount, s2) =>
      match secureInput MAX_CATEGORY_LEN (clearStdin s2) with
      | none => none
      | some (category, s3) => some ((date, amount, category), s3)

/-- The entries delivered to `n` successive `addEntry` calls. -/
def readEntries (scanLf : List Nat → Option Nat × List Nat) :
    Nat → List Nat → Option (List (List Nat × Nat × List Nat) × List Nat)
  | 0, s => some ([], s)
  | n + 1, s =>
    match readEntry scanLf s with
    | none => none
    | some (e, s1) =>
      match readEntries scanLf n s1 with
      | none => none
      | some (es, s2) => some (e :: es, s2)

/-- One `addIncome` call per element of `calls` (the block `malloc` returns in
that call and the pointer representations written by its `saveIncome`). -/
def addIncomes (scanLf : List Nat → Option Nat × List Nat) :
    List (Node × (Nat → List Nat)) → World → Option World
  | [], w => some w
  | c :: cs, w =>
    match addIncome scanLf c.1 c.2 w with
    | none => none
    | some w1 => addIncomes scanLf cs w1

/-- One `addExpense` call per element of `calls`. -/
def addExpenses (scanLf : List Nat → Option Nat × List Nat) :
    List (Node × (Nat → List Nat)) → World → Option World
  | [], w => some w
  | c :: cs, w =>
    match addExpense scanLf c.1 c.2 w with
    | none => none
    | some w1 => addExpenses scanLf cs w1

/-- The globals before `main` has run: empty lists and zero totals. -/
def World.Fresh (w : World) : Prop :=
  w.incomeList = [] ∧ w.expenseList = [] ∧ w.currentIncome = 0 ∧ w.currentExpense = 0

/-! ## Concrete data for running the program -/

/-- A block as `malloc` may return it: every byte is 0xAA. -/
def sampleBlock : Node :=
  { date := List.replicate 30 170
    pad1 := List.replicate 2 170
    amount := 0xAAAAAAAAAAAAAAAA
    category := List.replicate 50 170
    pad2 := List.replicate 6 170 }

/-- Pointer representations as `saveToFile` may find them: null pointers. -/
def samplePtr : Nat → List Nat := fun _ => List.replicate 8 0

/-- The keyboard input of the scenario: `2024-01-01`, `100`, `salary`, then
`2024-01-02`, `40`, `food`, each followed by a newline. -/
def scenarioInput : List Nat :=
  [50, 48, 50, 52, 45, 48, 49, 45, 48, 49, 10, 49, 48, 48, 10,
   115, 97, 108, 97, 114, 121, 10,
   50, 48, 50, 52, 45, 48, 49, 45, 48, 50, 10, 52, 48, 10, 102, 111, 111, 100, 10]

/-- The two entries of the scenario as the program reads them. -/
def scenarioEntries : List (List Nat × Nat × List Nat) :=
  [([50, 48, 50, 52, 45, 48, 49, 45, 48, 49], f64OfNat 100, [115, 97, 108, 97, 114, 121]),
   ([50, 48, 50, 52, 45, 48, 49, 45, 48, 50], f64OfNat 40, [102, 111, 111, 100])]

/-- The scenario: a process started without any file adds the income and then
the expense. -/
def scenario : Option World :=
  match addIncome scanfDecimal sampleBlock samplePtr
      (startProcess (0, 0) scenarioInput noFiles) with
  | none => none
  | some w1 => addExpense scanfDecimal sampleBlock samplePtr w1

/-- Keyboard input with a negative amount: `2024-01-01`, then `-5`. -/
def rejectedInput : List Nat :=
  [50, 48, 50, 52, 45, 48, 49, 45, 48, 49, 10, 45, 53, 10]

/-- Keyboard input `alice`, `secret`. -/
def aliceSecret : List Nat := [97, 108, 105, 99, 101, 10, 115, 101, 99, 114, 101, 116, 10]

/-- Keyboard input `alice`, `wrong`. -/
def aliceWrong : List Nat := [97, 108, 105, 99, 101, 10, 119, 114, 111, 110, 103, 10]

/-- Keyboard input `alice`, `aa`. -/
def aliceAa : List Nat := [97, 108, 105, 99, 101, 10, 97, 97, 10]

/-- Keyboard input `alice`, `b@`. -/
def aliceBAt : List Nat := [97, 108, 105, 99, 101, 10, 98, 64, 10]

/-- Keyboard input with an empty user name: an empty line, then `secret`. -/
def emptyNameSecret : List Nat := [10, 115, 101, 99, 114, 101, 116, 10]

/-- Keyboard input `bob:177670 x`, `zz`. -/
def colonNameZz : List Nat :=
  [98, 111, 98, 58, 49, 55, 55, 54, 55, 48, 32, 120, 10, 122, 122, 10]

/-- Keyboard input `bob`, `a`. -/
def bobA : List Nat := [98, 111, 98, 10, 97, 10]

/-- Keyboard input `carol`, `pw`. -/
def carolPw : List Nat := [99, 97, 114, 111, 108, 10, 112, 119, 10]

/-! ## The checksum -/

theorem hashStep_eq (sc : Bool) (h b : Nat) :
    hashStep sc h b = (h * 33 + charToUInt sc b) % 2 ^ 32 := by
  simp only [hashStep]
  omega

theorem charToUInt_eq (sc : Bool) {b : Nat} (hb : sc = false ∨ b < 128) :
    charToUInt sc b = b := by
  unfold charToUInt
  rcases hb with h | h
  · simp [h]
  · rw [if_neg]
    omega

theorem foldl_hashStep_eq (sc : Bool) (p : List Nat) (h : Nat) :
    p.foldl (hashStep sc) h = p.foldl (fun h b => (h * 33 + charToUInt sc b) % 2 ^ 32) h := by
  induction p generalizing h with
  | nil => rfl
  | cons b bs ih => simp only [List.foldl_cons, hashStep_eq, ih]

theorem foldl_reference_eq (sc : Bool) (p : List Nat)
    (hp : sc = false ∨ ∀ b ∈ p, b < 128) (h : Nat) :
    p.foldl (fun h b => (h * 33 + charToUInt sc b) % 2 ^ 32) h =
      p.foldl (fun h b => (h * 33 + b) % 2 ^ 32) h := by
  induction p generalizing h with
  | nil => rfl
  | cons b bs ih =>
    have hb : sc = false ∨ b < 128 := hp.imp id (fun hp => hp b (List.mem_cons_self _ _))
    simp only [List.foldl_cons, charToUInt_eq sc hb]
    exact ih (hp.imp id (fun hp c hc => hp c (List.mem_cons_of_mem _ hc))) _

/-- C3 (as stated): where `char` is signed, the checksum that `hashPassword`
computes for the one-byte password 200 is not the reference checksum, because
the byte enters the sum as a negative `char`. -/
theorem hashPassword_high_byte_differs :
    hashPassword true [200] ≠ utoa (referenceChecksum [200]) := by
  decide

/-- C3 (amended): `hashPassword` prints the value obtained from 5381 by
`h := (h * 33 + c) mod 2^32` for each byte, where `c` is the byte as a `char`
converted to `unsigned int`; this is the reference checksum where `char` is
unsigned, and for every password of bytes below 128. -/
theorem hashPassword_spec (sc : Bool) (p : List Nat) :
    hashPassword sc p
      = utoa (p.foldl (fun h b => (h * 33 + charToUInt sc b) % 2 ^ 32) 5381) ∧
    ((sc = false ∨ ∀ b ∈ p, b < 128) → hashPassword sc p = utoa (referenceChecksum p)) := by
  refine ⟨?_, fun hp => ?_⟩
  · simp only [hashPassword, foldl_hashStep_eq]
  · simp only [hashPassword, referenceChecksum, foldl_hashStep_eq,
      foldl_reference_eq sc p hp]

theorem hashPassword_spec_witness :
    (true = false ∨ ∀ b ∈ [115, 101, 99, 114, 101, 116], b < 128) ∧
    hashPassword true [115, 101, 99, 114, 101, 116] =
      utoa (referenceChecksum [115, 101, 99, 114, 101, 116]) :=
  ⟨Or.inr (by decide), (hashPassword_spec true [115, 101, 99, 114, 101, 116]).2
    (Or.inr (by decide))⟩

/-! ## Records on disk -/

theorem toLE_length (k x : Nat) : (toLE k x).length = k := by
  induction k generalizing x with
  | zero => rfl
  | succ k ih => simp [toLE, ih]

theorem ofLE_toLE (k x : Nat) : ofLE (toLE k x) = x % 256 ^ k := by
  induction k generalizing x with
  | zero => simp [toLE, ofLE, Nat.mod_one]
  | succ k ih => rw [toLE, ofLE, ih, pow_succ', Nat.mod_mul]

theorem ofLE_toLE_of_lt {x : Nat} (hx : x < 2 ^ 64) : ofLE (toLE 8 x) = x := by
  rw [ofLE_toLE]
  exact Nat.mod_eq_of_lt (by norm_num at hx ⊢; exact hx)

theorem nodeBytes_length (n : Node) (p : List Nat) (hn : n.WF) (hp : p.length = 8) :
    (nodeBytes n p).length = sizeofNode := by
  obtain ⟨h1, h2, -, h4, h5⟩ := hn
  simp [nodeBytes, toLE_length, h1, h2, h4, h5, hp, sizeofNode, MAX_DATE_LEN,
    MAX_CATEGORY_LEN]

theorem decodeNode_nodeBytes (n : Node) (p : List Nat) (hn : n.WF) :
    decodeNode (nodeBytes n p) = n := by
  obtain ⟨h1, h2, h3, h4, h5⟩ := hn
  have h8 : (toLE 8 n.amount).length = 8 := toLE_length 8 n.amount
  simp only [MAX_DATE_LEN, MAX_CATEGORY_LEN] at h1 h4
  cases n with
  | mk date pad1 amount category pad2 =>
    simp only at h1 h2 h3 h4 h5 h8
    simp only [decodeNode, nodeBytes, List.append_assoc]
    have e1 : (date ++ (pad1 ++ (toLE 8 amount ++ (category ++ (pad2 ++ p))))).take 30 = date := by
      rw [← h1]; exact List.take_left' rfl
    have d1 : (date ++ (pad1 ++ (toLE 8 amount ++ (category ++ (pad2 ++ p))))).drop 30
        = pad1 ++ (toLE 8 amount ++ (category ++ (pad2 ++ p))) := by
      rw [← h1]; exact List.drop_left' rfl
    have d2 : (date ++ (pad1 ++ (toLE 8 amount ++ (category ++ (pad2 ++ p))))).drop 32
        = toLE 8 amount ++ (category ++ (pad2 ++ p)) := by
      rw [← List.append_assoc]
      exact List.drop_left' (by simp [h1, h2])
    have d3 : (date ++ (pad1 ++ (toLE 8 amount ++ (category ++ (pad2 ++ p))))).drop 40
        = category ++ (pad2 ++ p) := by
      rw [← List.append_assoc, ← List.append_assoc]
      exact List.drop_left' (by simp [h1, h2, h8])
    have d4 : (date ++ (pad1 ++ (toLE 8 amount ++ (category ++ (pad2 ++ p))))).drop 90
        = pad2 ++ p := by
      rw [← List.append_assoc, ← List.append_assoc, ← List.append_assoc]
      exact List.drop_left' (by simp [h1, h2, h8, h4])
    rw [e1, d1, d2, d3, d4]
    rw [List.take_left' h2, List.take_left' h8, List.take_left' h4, List.take_left' h5,
      ofLE_toLE_of_lt h3]

theorem loadLoop_short (fuel : Nat) (t : List Nat) (ht : t.length < sizeofNode) :
    loadLoop fuel t = [] := by
  cases fuel with
  | zero => rfl
  | succ f => simp [loadLoop, Nat.not_le.mpr ht]

theorem loadLoop_writeNodes (ptr : Nat → List Nat) (hptr : ∀ i, (ptr i).length = 8)
    (L : List Node) (hL : ∀ n ∈ L, n.WF) (t : List Nat) (ht : t.length < sizeofNode)
    (i fuel : Nat) (hf : L.length ≤ fuel) :
    loadLoop fuel (writeNodes ptr i L ++ t) = L := by
  induction L generalizing i fuel with
  | nil => simpa [writeNodes] using loadLoop_short fuel t ht
  | cons n ns ih =>
    have hn : n.WF := hL n (List.mem_cons_self _ _)
    have hlen := nodeBytes_length n (ptr i) hn (hptr i)
    cases fuel with
    | zero => simp at hf
    | succ f =>
      have hle : sizeofNode ≤ (writeNodes ptr i (n :: ns) ++ t).length := by
        simp only [writeNodes, List.length_append, hlen]
        omega
      simp only [loadLoop, hle, if_true]
      simp only [writeNodes, List.append_assoc]
      rw [List.take_left' hlen, List.drop_left' hlen, decodeNode_nodeBytes n _ hn]
      rw [ih (fun m hm => hL m (List.mem_cons_of_mem _ hm)) (i + 1) f
        (by simpa using hf)]

theorem writeNodes_length (ptr : Nat → List Nat) (hptr : ∀ i, (ptr i).length = 8)
    (L : List Node) (hL : ∀ n ∈ L, n.WF) (i : Nat) :
    (writeNodes ptr i L).length = sizeofNode * L.length := by
  induction L generalizing i with
  | nil => rfl
  | cons n ns ih =>
    have hn : n.WF := hL n (List.mem_cons_self _ _)
    simp only [writeNodes, List.length_append, List.length_cons,
      nodeBytes_length n (ptr i) hn (hptr i),
      ih (fun m hm => hL m (List.mem_cons_of_mem _ hm)) (i + 1)]
    ring

/-- More fuel than the length of the file does not change what the loop of
`loadFromFile` returns. -/
theorem loadLoop_fuel (bytes : List Nat) (fuel : Nat) (hf : bytes.length ≤ fuel) :
    loadLoop fuel bytes = loadLoop bytes.length bytes := by
  induction fuel using Nat.strong_induction_on generalizing bytes with
  | _ fuel ih =>
    by_cases hs : sizeofNode ≤ bytes.length
    · have hpos : 0 < sizeofNode := by decide
      obtain ⟨f, rfl⟩ : ∃ f, fuel = f + 1 := ⟨fuel - 1, by omega⟩
      obtain ⟨g, hg⟩ : ∃ g, bytes.length = g + 1 := ⟨bytes.length - 1, by omega⟩
      have hd : (bytes.drop sizeofNode).length ≤ g := by
        simp only [List.length_drop]; omega
      rw [hg]
      simp only [loadLoop, hs, if_true]
      rw [ih f (by omega) _ (by omega), ih g (by omega) _ hd]
    · rw [loadLoop_short _ _ (by omega), loadLoop_short _ _ (by omega)]

theorem load_after_write (ptr : Nat → List Nat) (hptr : ∀ i, (ptr i).length = 8)
    (L : List Node) (hL : ∀ n ∈ L, n.WF) (t : List Nat) (ht : t.length < sizeofNode)
    (cur : List Node) (name : String) (fs : FileSystem) :
    loadFromFile cur name (fs.write name (writeNodes ptr 0 L ++ t)) = L := by
  have hlen := writeNodes_length ptr hptr L hL 0
  simp only [loadFromFile, FileSystem.write, if_true]
  apply loadLoop_writeNodes ptr hptr L hL t ht
  simp only [List.length_append, hlen, sizeofNode]
  omega

/-- C1: saving a list with `saveToFile` and loading the file with
`loadFromFile` gives a list with the same entries in the same order, each with
the same date, amount and category, whatever the file system held before and
whatever list the variable held. -/
theorem save_load_roundtrip (ptr : Nat → List Nat) (hptr : ∀ i, (ptr i).length = 8)
    (L : List Node) (hL : ∀ n ∈ L, n.WF) (cur : List Node) (name : String)
    (fs : FileSystem) :
    (loadFromFile cur name (saveToFile ptr L name fs)).length = L.length ∧
    (loadFromFile cur name (saveToFile ptr L name fs)).map Node.fields = L.map Node.fields ∧
    (loadFromFile cur name (saveToFile ptr L name fs)).map Node.entry = L.map Node.entry := by
  have h := load_after_write ptr hptr L hL [] (by decide) cur name fs
  simp only [List.append_nil] at h
  simp only [saveToFile, h, and_self]

/-- C8: when the file holds the records of `L` followed by fewer bytes than one
record, `loadFromFile` returns the entries of `L` in order and drops the
partial record. -/
theorem load_truncated (ptr : Nat → List Nat) (hptr : ∀ i, (ptr i).length = 8)
    (L : List Node) (hL : ∀ n ∈ L, n.WF) (t : List Nat) (ht : t.length < sizeofNode)
    (cur : List Node) (name : String) (fs fs1 : FileSystem) (bytes : List Nat)
    (hsave : saveToFile ptr L name fs name = some bytes) :
    (loadFromFile cur name (fs1.write name (bytes ++ t))).map Node.fields
      = L.map Node.fields := by
  have hb : bytes = writeNodes ptr 0 L := by
    simp only [saveToFile, FileSystem.write, if_true, Option.some.injEq] at hsave
    exact hsave.symm
  rw [hb, load_after_write ptr hptr L hL t ht cur name fs1]

/-! ## Adding entries -/

theorem appendNode_eq (l : List Node) (n : Node) : appendNode l n = l ++ [n] := by
  induction l with
  | nil => rfl
  | cons x xs ih => simp [appendNode, ih]

theorem secureInput_ne_zero {size : Nat} {s x r : List Nat}
    (h : secureInput size s = some (x, r)) : ∀ b ∈ x, b ≠ 0 := by
  unfold secureInput at h
  split at h
  · simp at h
  · rename_i buf rest _
    simp only [Option.some.injEq, Prod.mk.injEq] at h
    intro b hb
    rw [← h.1] at hb
    have h1 : b ∈ cstr buf := (List.takeWhile_sublist _).subset hb
    simpa using List.mem_takeWhile_imp h1

theorem cstr_append_zero (src rest : List Nat) (h : ∀ b ∈ src, b ≠ 0) :
    cstr (src ++ 0 :: rest) = src := by
  unfold cstr
  rw [List.takeWhile_append_of_pos (fun a ha => by simpa using h a ha)]
  simp

theorem cstr_strcpy (dst src : List Nat) (h : ∀ b ∈ src, b ≠ 0) :
    cstr (strcpy dst src) = src :=
  cstr_append_zero src _ h

theorem f64Lt_false_of_ge {a : Nat} (h : f64Ge a 0 = true) : f64Lt a 0 = false := by
  simp only [f64Ge, Bool.and_eq_true, Bool.not_eq_true', decide_eq_true_eq] at h
  simp only [f64Lt, h.1.1, h.1.2, Bool.not_false, Bool.true_and, decide_eq_false_iff_not,
    not_lt]
  exact h.2

theorem addEntry_accept (scanLf : List Nat → Option Nat × List Nat) (blk : Node)
    (list : List Node) (total : Nat) (stdin date category s1 s2 s3 : List Nat)
    (amount : Nat)
    (hdate : secureInput MAX_DATE_LEN stdin = some (date, s1))
    (hamt : scanLf s1 = (some amount, s2))
    (hlt : f64Lt amount 0 = false)
    (hcat : secureInput MAX_CATEGORY_LEN (clearStdin s2) = some (category, s3)) :
    addEntry scanLf blk list total stdin =
      some (list ++ [{ blk with date := strcpy blk.date date,
                                category := strcpy blk.category category,
                                amount := amount }], f64Add total amount, s3) := by
  simp [addEntry, hdate, hamt, hlt, hcat, appendNode_eq]

theorem addEntry_reject (scanLf : List Nat → Option Nat × List Nat) (blk : Node)
    (list : List Node) (total : Nat) (stdin date s1 s2 : List Nat) (amount : Nat)
    (hdate : secureInput MAX_DATE_LEN stdin = some (date, s1))
    (hamt : scanLf s1 = (some amount, s2))
    (hlt : f64Lt amount 0 = true) :
    addEntry scanLf blk list total stdin = some (list, total, clearStdin s2) := by
  simp [addEntry, hdate, hamt, hlt]

theorem new_entry (blk : Node) (stdin date category s1 s2 s3 : List Nat) (amount : Nat)
    (hdate : secureInput MAX_DATE_LEN stdin = some (date, s1))
    (hcat : secureInput MAX_CATEGORY_LEN s2 = some (category, s3)) :
    Node.entry { blk with date := strcpy blk.date date,
                          category := strcpy blk.category category,
                          amount := amount } = (date, amount, category) := by
  simp only [Node.entry, cstr_strcpy _ _ (secureInput_ne_zero hdate),
    cstr_strcpy _ _ (secureInput_ne_zero hcat)]

/-- C4: when `addIncome` reads a date, an amount that is `>= 0` and a
category, the income list becomes the old list followed by one node holding
that date, amount and category, the income total becomes the old total plus
the amount, and the expense list and total keep their values; the same holds
for `addExpense` with the roles exchanged. -/
theorem add_appends_and_updates_total (scanLf : List Nat → Option Nat × List Nat)
    (blk : Node) (ptr : Nat → List Nat) (w : World)
    (date category s1 s2 s3 : List Nat) (amount : Nat)
    (hdate : secureInput MAX_DATE_LEN w.stdin = some (date, s1))
    (hamt : scanLf s1 = (some amount, s2))
    (hge : f64Ge amount 0 = true)
    (hcat : secureInput MAX_CATEGORY_LEN (clearStdin s2) = some (category, s3)) :
    (∃ w1 n, addIncome scanLf blk ptr w = some w1 ∧
      w1.incomeList = w.incomeList ++ [n] ∧ n.entry = (date, amount, category) ∧
      w1.currentIncome = f64Add w.currentIncome amount ∧
      w1.expenseList = w.expenseList ∧ w1.currentExpense = w.currentExpense) ∧
    (∃ w1 n, addExpense scanLf blk ptr w = some w1 ∧
      w1.expenseList = w.expenseList ++ [n] ∧ n.entry = (date, amount, category) ∧
      w1.currentExpense = f64Add w.currentExpense amount ∧
      w1.incomeList = w.incomeList ∧ w1.currentIncome = w.currentIncome) := by
  have hlt := f64Lt_false_of_ge hge
  have hent := new_entry blk w.stdin date category s1 (clearStdin s2) s3 amount hdate hcat
  have hadd := fun list total =>
    addEntry_accept scanLf blk list total _ date category s1 s2 s3 amount hdate hamt hlt hcat
  constructor
  · simp only [addIncome, hadd, saveIncome]
    exact ⟨_, _, rfl, rfl, hent, rfl, rfl, rfl⟩
  · simp only [addExpense, hadd, saveExpense]
    exact ⟨_, _, rfl, rfl, hent, rfl, rfl, rfl⟩

/-- C5: when the amount that `addIncome` reads is `< 0`, the call returns
with both lists and both totals unchanged; the same holds for `addExpense`. -/
theorem add_rejects_negative (scanLf : List Nat → Option Nat × List Nat)
    (blk : Node) (ptr : Nat → List Nat) (w : World)
    (date s1 s2 : List Nat) (amount : Nat)
    (hdate : secureInput MAX_DATE_LEN w.stdin = some (date, s1))
    (hamt : scanLf s1 = (some amount, s2))
    (hneg : f64Lt amount 0 = true) :
    (∃ w1, addIncome scanLf blk ptr w = some w1 ∧
      w1.incomeList = w.incomeList ∧ w1.currentIncome = w.currentIncome ∧
      w1.expenseList = w.expenseList ∧ w1.currentExpense = w.currentExpense) ∧
    (∃ w1, addExpense scanLf blk ptr w = some w1 ∧
      w1.incomeList = w.incomeList ∧ w1.currentIncome = w.currentIncome ∧
      w1.expenseList = w.expenseList ∧ w1.currentExpense = w.currentExpense) := by
  have hrej := fun list total =>
    addEntry_reject scanLf blk list total _ date s1 s2 amount hdate hamt hneg
  constructor
  · simp only [addIncome, hrej, saveIncome]
    exact ⟨_, rfl, rfl, rfl, rfl, rfl⟩
  · simp only [addExpense, hrej, saveExpense]
    exact ⟨_, rfl, rfl, rfl, rfl, rfl⟩

/-! ## Totals and the snapshot -/

theorem f64Round_le (m : Nat) : f64Round m ≤ 2047 * 2 ^ 52 := by
  have h53 : (2 : Nat) ^ 53 ≤ 2047 * 2 ^ 52 := by norm_num
  unfold f64Round
  simp only []
  split_ifs <;> omega

theorem f64Quiet_lt {x : Nat} (hx : x < 2 ^ 64) : f64Quiet x < 2 ^ 64 := by
  unfold f64Quiet
  split
  · rename_i h
    norm_num at hx h ⊢
    omega
  · exact hx

theorem f64Add_lt {x y : Nat} (hx : x < 2 ^ 64) (hy : y < 2 ^ 64) : f64Add x y < 2 ^ 64 := by
  have hr := fun m => f64Round_le m
  have h63 : (2047 : Nat) * 2 ^ 52 < 2 ^ 63 := by norm_num
  have h64 : (2 : Nat) ^ 63 + 2 ^ 63 = 2 ^ 64 := by norm_num
  unfold f64Add
  split
  · exact f64Quiet_lt hx
  split
  · exact f64Quiet_lt hy
  split
  · split
    · norm_num
    · exact hx
  split
  · exact hy
  simp only
  split
  · split <;> norm_num
  split
  · have := hr (f64ToInt x + f64ToInt y).natAbs
    omega
  · have := hr (f64ToInt x + f64ToInt y).natAbs
    omega

theorem foldl_f64Add_lt (xs : List Nat) (hxs : ∀ x ∈ xs, x < 2 ^ 64) (t : Nat)
    (ht : t < 2 ^ 64) : xs.foldl f64Add t < 2 ^ 64 := by
  induction xs generalizing t with
  | nil => exact ht
  | cons x xs ih =>
    exact ih (fun y hy => hxs y (List.mem_cons_of_mem _ hy)) _
      (f64Add_lt ht (hxs x (List.mem_cons_self _ _)))

theorem readEntry_some {scanLf : List Nat → Option Nat × List Nat} {s r d c : List Nat}
    {a : Nat} (h : readEntry scanLf s = some ((d, a, c), r)) :
    ∃ s1 s2, secureInput MAX_DATE_LEN s = some (d, s1) ∧ scanLf s1 = (some a, s2) ∧
      secureInput MAX_CATEGORY_LEN (clearStdin s2) = some (c, r) := by
  unfold readEntry at h
  split at h
  · simp at h
  · rename_i date s1 hd
    split at h
    · simp at h
    · rename_i amount s2 ha
      split at h
      · simp at h
      · rename_i category s3 hc
        simp only [Option.some.injEq, Prod.mk.injEq] at h
        obtain ⟨⟨rfl, rfl, rfl⟩, rfl⟩ := h
        exact ⟨s1, s2, hd, ha, hc⟩

theorem addIncomes_spec (scanLf : List Nat → Option Nat × List Nat)
    (calls : List (Node × (Nat → List Nat))) (w : World)
    (es : List (List Nat × Nat × List Nat)) (rest : List Nat)
    (hread : readEntries scanLf calls.length w.stdin = some (es, rest))
    (hge : ∀ e ∈ es, f64Ge e.2.1 0 = true) :
    ∃ w1, addIncomes scanLf calls w = some w1 ∧
      w1.incomeList.map Node.entry = w.incomeList.map Node.entry ++ es ∧
      w1.currentIncome = (es.map (fun e => e.2.1)).foldl f64Add w.currentIncome ∧
      w1.expenseList = w.expenseList ∧ w1.currentExpense = w.currentExpense := by
  induction calls generalizing w es with
  | nil =>
    simp only [List.length_nil, readEntries, Option.some.injEq, Prod.mk.injEq] at hread
    obtain ⟨rfl, -⟩ := hread
    exact ⟨w, rfl, by simp, rfl, rfl, rfl⟩
  | cons c cs ih =>
    simp only [List.length_cons, readEntries] at hread
    split at hread
    · simp at hread
    · rename_i e s1 he
      split at hread
      · simp at hread
      · rename_i es1 s2 hes
        simp only [Option.some.injEq, Prod.mk.injEq] at hread
        obtain ⟨rfl, rfl⟩ := hread
        obtain ⟨d, a, k⟩ := e
        obtain ⟨t1, t2, hd, ha, hc⟩ := readEntry_some he
        have hge1 : f64Ge a 0 = true := hge (d, a, k) (List.mem_cons_self _ _)
        have hadd := addEntry_accept scanLf c.1 w.incomeList w.currentIncome w.stdin d k
          t1 t2 s1 a hd ha (f64Lt_false_of_ge hge1) hc
        have hn := new_entry c.1 w.stdin d k t1 (clearStdin t2) s1 a hd hc
        obtain ⟨v, hv, hs, hl, ht, hel, het⟩ : ∃ v, addIncome scanLf c.1 c.2 w = some v ∧
            v.stdin = s1 ∧
            v.incomeList.map Node.entry = w.incomeList.map Node.entry ++ [(d, a, k)] ∧
            v.currentIncome = f64Add w.currentIncome a ∧
            v.expenseList = w.expenseList ∧
            v.currentExpense = w.currentExpense := by
          simp only [addIncome, hadd, saveIncome]
          exact ⟨_, rfl, rfl, by simp [hn], rfl, rfl, rfl⟩
        obtain ⟨w1, h1, h2, h3, h4, h5⟩ := ih v es1 (by rw [hs]; exact hes)
          (fun e he => hge e (List.mem_cons_of_mem _ he))
        refine ⟨w1, ?_, ?_, ?_, ?_, ?_⟩
        · simp only [addIncomes, hv, h1]
        · rw [h2, hl]; simp
        · rw [h3, ht]; simp
        · rw [h4, hel]
        · rw [h5, het]

theorem addExpenses_spec (scanLf : List Nat → Option Nat × List Nat)
    (calls : List (Node × (Nat → List Nat))) (w : World)
    (es : List (List Nat × Nat × List Nat)) (rest : List Nat)
    (hread : readEntries scanLf calls.length w.stdin = some (es, rest))
    (hge : ∀ e ∈ es, f64Ge e.2.1 0 = true) :
    ∃ w1, addExpenses scanLf calls w = some w1 ∧
      w1.expenseList.map Node.entry = w.expenseList.map Node.entry ++ es ∧
      w1.currentExpense = (es.map (fun e => e.2.1)).foldl f64Add w.currentExpense ∧
      w1.incomeList = w.incomeList ∧ w1.currentIncome = w.currentIncome := by
  induction calls generalizing w es with
  | nil =>
    simp only [List.length_nil, readEntries, Option.some.injEq, Prod.mk.injEq] at hread
    obtain ⟨rfl, -⟩ := hread
    exact ⟨w, rfl, by simp, rfl, rfl, rfl⟩
  | cons c cs ih =>
    simp only [List.length_cons, readEntries] at hread
    split at hread
    · simp at hread
    · rename_i e s1 he
      split at hread
      · simp at hread
      · rename_i es1 s2 hes
        simp only [Option.some.injEq, Prod.mk.injEq] at hread
        obtain ⟨rfl, rfl⟩ := hread
        obtain ⟨d, a, k⟩ := e
        obtain ⟨t1, t2, hd, ha, hc⟩ := readEntry_some he
        have hge1 : f64Ge a 0 = true := hge (d, a, k) (List.mem_cons_self _ _)
        have hadd := addEntry_accept scanLf c.1 w.expenseList w.currentExpense w.stdin d k
          t1 t2 s1 a hd ha (f64Lt_false_of_ge hge1) hc
        have hn := new_entry c.1 w.stdin d k t1 (clearStdin t2) s1 a hd hc
        obtain ⟨v, hv, hs, hl, ht, hel, het⟩ : ∃ v, addExpense scanLf c.1 c.2 w = some v ∧
            v.stdin = s1 ∧
            v.expenseList.map Node.entry = w.expenseList.map Node.entry ++ [(d, a, k)] ∧
            v.currentExpense = f64Add w.currentExpense a ∧
            v.incomeList = w.incomeList ∧
            v.currentIncome = w.currentIncome := by
          simp only [addExpense, hadd, saveExpense]
          exact ⟨_, rfl, rfl, by simp [hn], rfl, rfl, rfl⟩
        obtain ⟨w1, h1, h2, h3, h4, h5⟩ := ih v es1 (by rw [hs]; exact hes)
          (fun e he => hge e (List.mem_cons_of_mem _ he))
        refine ⟨w1, ?_, ?_, ?_, ?_, ?_⟩
        · simp only [addExpenses, hv, h1]
        · rw [h2, hl]; simp
        · rw [h3, ht]; simp
        · rw [h4, hel]
        · rw [h5, het]

/-- What `loadRecord` stores in the totals comes from `record.bin`: in any
world whose file system is the one `saveRecord` left, whatever its totals are
at that moment, the totals after `loadRecord` are the ones that were saved. -/
theorem loadRecord_of_saved (uninit : Nat × Nat) (w w2 : World)
    (hfs : w2.fs = (saveRecord w).fs)
    (hi : w.currentIncome < 2 ^ 64) (he : w.currentExpense < 2 ^ 64) :
    (loadRecord uninit w2).currentIncome = w.currentIncome ∧
    (loadRecord uninit w2).currentExpense = w.currentExpense := by
  have h8 := fun x => toLE_length 8 x
  have ht : ∀ x, (toLE 8 x).take 8 = toLE 8 x := fun x =>
    List.take_of_length_le (h8 x).le
  have hfile : w2.fs RECORD_FILE
      = some (toLE 8 w.currentIncome ++ toLE 8 w.currentExpense) := by
    rw [hfs]
    simp only [saveRecord, FileSystem.write, if_true]
  simp only [loadRecord, hfile, List.length_append, h8,
    sizeofRecord, Nat.reduceAdd, le_refl, if_true, List.take_left' (h8 _),
    List.drop_left' (h8 _), ht, ofLE_toLE_of_lt hi, ofLE_toLE_of_lt he, and_self]

theorem amounts_of_entries (l : List Node) :
    (l.map Node.entry).map (fun e => e.2.1) = l.map Node.amount := by
  simp [List.map_map, Function.comp_def, Node.entry]

/-- C7: starting from empty lists and zero totals, after a series of
`addIncome` calls that read amounts `>= 0`, followed by `saveRecord`, a
`loadRecord` in any world that has the resulting file system (whatever its
totals are before the load, so in particular in the same process and in a
restarted one) yields an income total that is the sum of the amounts read,
added in the order of the calls, and that is the sum of the amounts held by the
income list; the same holds for `addExpense` and the expense total. -/
theorem snapshot_equals_sum (scanLf : List Nat → Option Nat × List Nat)
    (calls : List (Node × (Nat → List Nat))) (w0 : World)
    (es : List (List Nat × Nat × List Nat)) (rest : List Nat) (uninit : Nat × Nat)
    (hfresh : w0.Fresh)
    (hread : readEntries scanLf calls.length w0.stdin = some (es, rest))
    (hge : ∀ e ∈ es, f64Ge e.2.1 0 = true)
    (hbits : ∀ e ∈ es, e.2.1 < 2 ^ 64) :
    (∃ w, addIncomes scanLf calls w0 = some w ∧
      w.incomeList.map Node.amount = es.map (fun e => e.2.1) ∧
      ∀ w2 : World, w2.fs = (saveRecord w).fs →
        (loadRecord uninit w2).currentIncome = f64Sum (es.map (fun e => e.2.1)) ∧
        (loadRecord uninit w2).currentIncome = f64Sum (w.incomeList.map Node.amount)) ∧
    (∃ w, addExpenses scanLf calls w0 = some w ∧
      w.expenseList.map Node.amount = es.map (fun e => e.2.1) ∧
      ∀ w2 : World, w2.fs = (saveRecord w).fs →
        (loadRecord uninit w2).currentExpense = f64Sum (es.map (fun e => e.2.1)) ∧
        (loadRecord uninit w2).currentExpense = f64Sum (w.expenseList.map Node.amount)) := by
  obtain ⟨hil, hel, hit, het⟩ := hfresh
  have hb : ∀ x ∈ es.map (fun e => e.2.1), x < 2 ^ 64 := by
    intro x hx
    obtain ⟨e, he, rfl⟩ := List.mem_map.mp hx
    exact hbits e he
  have hsum : f64Sum (es.map (fun e => e.2.1)) < 2 ^ 64 :=
    foldl_f64Add_lt _ hb 0 (by norm_num)
  constructor
  · obtain ⟨w, h1, h2, h3, -, h5⟩ := addIncomes_spec scanLf calls w0 es rest hread hge
    rw [hil] at h2
    rw [hit] at h3
    rw [het] at h5
    have ha : w.incomeList.map Node.amount = es.map (fun e => e.2.1) := by
      rw [← amounts_of_entries, h2]; rfl
    have ht : w.currentIncome = f64Sum (es.map (fun e => e.2.1)) := h3
    refine ⟨w, h1, ha, fun w2 hfs => ?_⟩
    have hl := (loadRecord_of_saved uninit w w2 hfs (by rw [ht]; exact hsum)
      (by rw [h5]; norm_num)).1
    exact ⟨by rw [hl, ht], by rw [hl, ht, ha]⟩
  · obtain ⟨w, h1, h2, h3, -, h5⟩ := addExpenses_spec scanLf calls w0 es rest hread hge
    rw [hel] at h2
    rw [het] at h3
    rw [hit] at h5
    have ha : w.expenseList.map Node.amount = es.map (fun e => e.2.1) := by
      rw [← amounts_of_entries, h2]; rfl
    have ht : w.currentExpense = f64Sum (es.map (fun e => e.2.1)) := h3
    refine ⟨w, h1, ha, fun w2 hfs => ?_⟩
    have hl := (loadRecord_of_saved uninit w w2 hfs (by rw [h5]; norm_num)
      (by rw [ht]; exact hsum)).2
    exact ⟨by rw [hl, ht], by rw [hl, ht, ha]⟩

theorem scenario_reads :
    readEntries scanfDecimal 2 scenarioInput = some (scenarioEntries, []) := by
  decide!

theorem snapshot_equals_sum_witness :
    (startProcess (0, 0) scenarioInput noFiles).Fresh ∧
    readEntries scanfDecimal 2 (startProcess (0, 0) scenarioInput noFiles).stdin
      = some (scenarioEntries, []) ∧
    (∀ e ∈ scenarioEntries, f64Ge e.2.1 0 = true) ∧
    (∀ e ∈ scenarioEntries, e.2.1 < 2 ^ 64) ∧
    ((∃ w, addIncomes scanfDecimal [(sampleBlock, samplePtr), (sampleBlock, samplePtr)]
        (startProcess (0, 0) scenarioInput noFiles) = some w ∧
      w.incomeList.map Node.amount = scenarioEntries.map (fun e => e.2.1) ∧
      ∀ w2 : World, w2.fs = (saveRecord w).fs →
        (loadRecord (7, 9) w2).currentIncome
          = f64Sum (scenarioEntries.map (fun e => e.2.1)) ∧
        (loadRecord (7, 9) w2).currentIncome = f64Sum (w.incomeList.map Node.amount)) ∧
    (∃ w, addExpenses scanfDecimal [(sampleBlock, samplePtr), (sampleBlock, samplePtr)]
        (startProcess (0, 0) scenarioInput noFiles) = some w ∧
      w.expenseList.map Node.amount = scenarioEntries.map (fun e => e.2.1) ∧
      ∀ w2 : World, w2.fs = (saveRecord w).fs →
        (loadRecord (7, 9) w2).currentExpense
          = f64Sum (scenarioEntries.map (fun e => e.2.1)) ∧
        (loadRecord (7, 9) w2).currentExpense = f64Sum (w.expenseList.map Node.amount))) :=
  ⟨⟨rfl, rfl, rfl, rfl⟩, by decide!, by decide!, by decide!,
    snapshot_equals_sum scanfDecimal [(sampleBlock, samplePtr), (sampleBlock, samplePtr)]
      (startProcess (0, 0) scenarioInput noFiles) scenarioEntries [] (7, 9)
      ⟨rfl, rfl, rfl, rfl⟩ (by decide!) (by decide!) (by decide!)⟩

theorem add_appends_and_updates_total_witness :
    secureInput MAX_DATE_LEN (startProcess (0, 0) scenarioInput noFiles).stdin
      = some ([50, 48, 50, 52, 45, 48, 49, 45, 48, 49], scenarioInput.drop 11) ∧
    scanfDecimal (scenarioInput.drop 11) = (some (f64OfNat 100), scenarioInput.drop 14) ∧
    f64Ge (f64OfNat 100) 0 = true ∧
    secureInput MAX_CATEGORY_LEN (clearStdin (scenarioInput.drop 14))
      = some ([115, 97, 108, 97, 114, 121], scenarioInput.drop 22) ∧
    ((∃ w1 n, addIncome scanfDecimal sampleBlock samplePtr
          (startProcess (0, 0) scenarioInput noFiles) = some w1 ∧
        w1.incomeList = (startProcess (0, 0) scenarioInput noFiles).incomeList ++ [n] ∧
        n.entry = ([50, 48, 50, 52, 45, 48, 49, 45, 48, 49], f64OfNat 100,
          [115, 97, 108, 97, 114, 121]) ∧
        w1.currentIncome
          = f64Add (startProcess (0, 0) scenarioInput noFiles).currentIncome (f64OfNat 100) ∧
        w1.expenseList = (startProcess (0, 0) scenarioInput noFiles).expenseList ∧
        w1.currentExpense = (startProcess (0, 0) scenarioInput noFiles).currentExpense) ∧
     (∃ w1 n, addExpense scanfDecimal sampleBlock samplePtr
          (startProcess (0, 0) scenarioInput noFiles) = some w1 ∧
        w1.expenseList = (startProcess (0, 0) scenarioInput noFiles).expenseList ++ [n] ∧
        n.entry = ([50, 48, 50, 52, 45, 48, 49, 45, 48, 49], f64OfNat 100,
          [115, 97, 108, 97, 114, 121]) ∧
        w1.currentExpense
          = f64Add (startProcess (0, 0) scenarioInput noFiles).currentExpense (f64OfNat 100) ∧
        w1.incomeList = (startProcess (0, 0) scenarioInput noFiles).incomeList ∧
        w1.currentIncome = (startProcess (0, 0) scenarioInput noFiles).currentIncome)) :=
  ⟨by decide, by decide!, by decide!, by decide,
    add_appends_and_updates_total scanfDecimal sampleBlock samplePtr
      (startProcess (0, 0) scenarioInput noFiles)
      [50, 48, 50, 52, 45, 48, 49, 45, 48, 49] [115, 97, 108, 97, 114, 121]
      (scenarioInput.drop 11) (scenarioInput.drop 14) (scenarioInput.drop 22) (f64OfNat 100)
      (by decide) (by decide!) (by decide!) (by decide)⟩

theorem add_rejects_negative_witness :
    secureInput MAX_DATE_LEN (startProcess (0, 0) rejectedInput noFiles).stdin
      = some ([50, 48, 50, 52, 45, 48, 49, 45, 48, 49], [45, 53, 10]) ∧
    scanfDecimal [45, 53, 10] = (some (2 ^ 63 + f64OfNat 5), [10]) ∧
    f64Lt (2 ^ 63 + f64OfNat 5) 0 = true ∧
    ((∃ w1, addIncome scanfDecimal sampleBlock samplePtr
          (startProcess (0, 0) rejectedInput noFiles) = some w1 ∧
        w1.incomeList = (startProcess (0, 0) rejectedInput noFiles).incomeList ∧
        w1.currentIncome = (startProcess (0, 0) rejectedInput noFiles).currentIncome ∧
        w1.expenseList = (startProcess (0, 0) rejectedInput noFiles).expenseList ∧
        w1.currentExpense = (startProcess (0, 0) rejectedInput noFiles).currentExpense) ∧
     (∃ w1, addExpense scanfDecimal sampleBlock samplePtr
          (startProcess (0, 0) rejectedInput noFiles) = some w1 ∧
        w1.incomeList = (startProcess (0, 0) rejectedInput noFiles).incomeList ∧
        w1.currentIncome = (startProcess (0, 0) rejectedInput noFiles).currentIncome ∧
        w1.expenseList = (startProcess (0, 0) rejectedInput noFiles).expenseList ∧
        w1.currentExpense = (startProcess (0, 0) rejectedInput noFiles).currentExpense)) :=
  ⟨by decide, by decide!, by decide!,
    add_rejects_negative scanfDecimal sampleBlock samplePtr
      (startProcess (0, 0) rejectedInput noFiles)
      [50, 48, 50, 52, 45, 48, 49, 45, 48, 49] [45, 53, 10] [10] (2 ^ 63 + f64OfNat 5)
      (by decide) (by decide!) (by decide!)⟩

theorem sampleBlock_wf : sampleBlock.WF :=
  ⟨rfl, rfl, by decide, rfl, rfl⟩

theorem save_load_roundtrip_witness :
    (∀ i, (samplePtr i).length = 8) ∧
    (∀ n ∈ [sampleBlock, sampleBlock], n.WF) ∧
    ((loadFromFile [] INCOME_FILE
        (saveToFile samplePtr [sampleBlock, sampleBlock] INCOME_FILE noFiles)).length
      = [sampleBlock, sampleBlock].length ∧
     (loadFromFile [] INCOME_FILE
        (saveToFile samplePtr [sampleBlock, sampleBlock] INCOME_FILE noFiles)).map Node.fields
      = [sampleBlock, sampleBlock].map Node.fields ∧
     (loadFromFile [] INCOME_FILE
        (saveToFile samplePtr [sampleBlock, sampleBlock] INCOME_FILE noFiles)).map Node.entry
      = [sampleBlock, sampleBlock].map Node.entry) :=
  ⟨fun _ => rfl, by simp [sampleBlock_wf],
    save_load_roundtrip samplePtr (fun _ => rfl) [sampleBlock, sampleBlock]
      (by simp [sampleBlock_wf]) [] INCOME_FILE noFiles⟩

theorem load_truncated_witness :
    (∀ i, (samplePtr i).length = 8) ∧
    (∀ n ∈ [sampleBlock], n.WF) ∧
    [50, 48, 50].length < sizeofNode ∧
    saveToFile samplePtr [sampleBlock] INCOME_FILE noFiles INCOME_FILE
      = some (writeNodes samplePtr 0 [sampleBlock]) ∧
    (loadFromFile [] INCOME_FILE
        (noFiles.write INCOME_FILE (writeNodes samplePtr 0 [sampleBlock] ++ [50, 48, 50]))).map
        Node.fields
      = [sampleBlock].map Node.fields :=
  ⟨fun _ => rfl, by simp [sampleBlock_wf], by decide, rfl,
    load_truncated samplePtr (fun _ => rfl) [sampleBlock] (by simp [sampleBlock_wf])
      [50, 48, 50] (by decide) [] INCOME_FILE noFiles noFiles _ rfl⟩

/-! ## The scenario: balance and restart -/

theorem startProcess_after_saveRecord (uninit : Nat × Nat) (stdin : List Nat) (w : World)
    (hi : w.currentIncome < 2 ^ 64) (he : w.currentExpense < 2 ^ 64) :
    (startProcess uninit stdin (saveRecord w).fs).currentIncome = w.currentIncome ∧
    (startProcess uninit stdin (saveRecord w).fs).currentExpense = w.currentExpense := by
  have h8 := fun x => toLE_length 8 x
  have ht : ∀ x, (toLE 8 x).take 8 = toLE 8 x := fun x =>
    List.take_of_length_le (h8 x).le
  simp only [startProcess, loadExpense, loadIncome, loadRecord, saveRecord,
    FileSystem.write, if_true, List.length_append, h8,
    sizeofRecord, Nat.reduceAdd, le_refl, List.take_left' (h8 _), List.drop_left' (h8 _),
    ht, ofLE_toLE_of_lt hi, ofLE_toLE_of_lt he, and_self]

/-- C6 (as stated): in the scenario the balance is 60 after the two calls, but
a process restarted on the files that `addIncome` and `addExpense` wrote finds
both entries and a balance of 0, because only `saveRecord` writes the totals. -/
theorem balance_lost_without_saveRecord :
    scenario.map currentBalance = some (f64OfNat 60) ∧
    scenario.map (fun w => (startProcess (0, 0) [] w.fs).incomeList.map Node.entry)
      = some [([50, 48, 50, 52, 45, 48, 49, 45, 48, 49], f64OfNat 100,
                [115, 97, 108, 97, 114, 121])] ∧
    scenario.map (fun w => (startProcess (0, 0) [] w.fs).expenseList.map Node.entry)
      = some [([50, 48, 50, 52, 45, 48, 49, 45, 48, 50], f64OfNat 40,
                [102, 111, 111, 100])] ∧
    scenario.map (fun w => currentBalance (startProcess (0, 0) [] w.fs)) = some 0 ∧
    f64OfNat 60 ≠ 0 := by
  decide!

/-- C6 (amended): in the scenario the balance is 60 after the two calls, and
when the session ends with `saveRecord` (menu choice 5) a restarted process
again has the balance 60, whatever `malloc` returned and whatever input
follows. -/
theorem balance_survives_logout (blk1 blk2 : Node) (ptr1 ptr2 : Nat → List Nat)
    (u1 u2 : Nat × Nat) (stdin2 : List Nat) :
    ∃ w1 w2,
      addIncome scanfDecimal blk1 ptr1 (startProcess u1 scenarioInput noFiles) = some w1 ∧
      addExpense scanfDecimal blk2 ptr2 w1 = some w2 ∧
      currentBalance w2 = f64OfNat 60 ∧
      currentBalance (startProcess u2 stdin2 (saveRecord w2).fs) = f64OfNat 60 := by
  have hadd1 := fun list total =>
    addEntry_accept scanfDecimal blk1 list total scenarioInput
      [50, 48, 50, 52, 45, 48, 49, 45, 48, 49] [115, 97, 108, 97, 114, 121]
      (scenarioInput.drop 11) (scenarioInput.drop 14) (scenarioInput.drop 22) (f64OfNat 100)
      (by decide) (by decide!) (by decide!) (by decide)
  have hadd2 := fun list total =>
    addEntry_accept scanfDecimal blk2 list total (scenarioInput.drop 22)
      [50, 48, 50, 52, 45, 48, 49, 45, 48, 50] [102, 111, 111, 100]
      (scenarioInput.drop 33) (scenarioInput.drop 35) [] (f64OfNat 40)
      (by decide) (by decide!) (by decide!) (by decide)
  have h0 : startProcess u1 scenarioInput noFiles =
      { stdin := scenarioInput, fs := noFiles, incomeList := [], expenseList := [],
        currentIncome := 0, currentExpense := 0 } := rfl
  have hbal : f64Sub (f64Add 0 (f64OfNat 100)) (f64Add 0 (f64OfNat 40)) = f64OfNat 60 := by
    decide!
  have hi : f64Add 0 (f64OfNat 100) < 2 ^ 64 := by decide!
  have he : f64Add 0 (f64OfNat 40) < 2 ^ 64 := by decide!
  have e1 : ∃ w1, addIncome scanfDecimal blk1 ptr1 (startProcess u1 scenarioInput noFiles)
        = some w1 ∧ w1.stdin = scenarioInput.drop 22 ∧
      w1.currentIncome = f64Add 0 (f64OfNat 100) ∧ w1.currentExpense = 0 := by
    rw [h0]
    simp only [addIncome, hadd1, saveIncome]
    refine ⟨_, rfl, rfl, ?_, rfl⟩
    simp only []
  obtain ⟨w1, h1, hs1, hi1, he1⟩ := e1
  have e2 : ∃ w2, addExpense scanfDecimal blk2 ptr2 w1 = some w2 ∧
      w2.currentIncome = w1.currentIncome ∧
      w2.currentExpense = f64Add w1.currentExpense (f64OfNat 40) := by
    simp only [addExpense, hs1, hadd2, saveExpense]
    refine ⟨_, rfl, rfl, ?_⟩
    simp only []
  obtain ⟨w2, h2, hi2, he2⟩ := e2
  rw [hi1] at hi2
  rw [he1] at he2
  refine ⟨w1, w2, h1, h2, ?_, ?_⟩
  · simp only [currentBalance, hi2, he2]
    exact hbal
  · simp only [currentBalance]
    rw [(startProcess_after_saveRecord u2 stdin2 w2 (by rw [hi2]; exact hi)
        (by rw [he2]; exact he)).1,
      (startProcess_after_saveRecord u2 stdin2 w2 (by rw [hi2]; exact hi)
        (by rw [he2]; exact he)).2, hi2, he2]
    exact hbal

/-! ## Reading lines -/

theorem fgetsAux_length (k : Nat) (s : List Nat) : (fgetsAux k s).1.length ≤ k := by
  induction k generalizing s with
  | zero => simp [fgetsAux]
  | succ k ih =>
    cases s with
    | nil => simp [fgetsAux]
    | cons b s =>
      by_cases hb : b = 10
      · simp [fgetsAux, hb]
      · simp only [fgetsAux, hb, if_false, List.length_cons]
        exact Nat.succ_le_succ (ih s)

theorem fgetsAux_line (k : Nat) (l rest : List Nat) (hl : ∀ b ∈ l, b ≠ 10)
    (hk : l.length < k) : fgetsAux k (l ++ 10 :: rest) = (l ++ [10], rest) := by
  induction l generalizing k with
  | nil =>
    obtain ⟨j, rfl⟩ : ∃ j, k = j + 1 := ⟨k - 1, by simp at hk; omega⟩
    simp [fgetsAux]
  | cons b l ih =>
    obtain ⟨j, rfl⟩ : ∃ j, k = j + 1 := ⟨k - 1, by simp at hk; omega⟩
    have hb : b ≠ 10 := hl b (List.mem_cons_self _ _)
    have := ih j (fun c hc => hl c (List.mem_cons_of_mem _ hc))
      (by simp at hk; omega)
    simp [fgetsAux, hb, this]

theorem fgets_line (l rest : List Nat) (hl : ∀ b ∈ l, b ≠ 10)
    (hk : l.length < MAX_LINE_LEN - 1) :
    fgets MAX_LINE_LEN (l ++ 10 :: rest) = some (l ++ [10], rest) := by
  simp [fgets, fgetsAux_line _ l rest hl hk]

theorem secureInput_props {size : Nat} {s x r : List Nat}
    (h : secureInput size s = some (x, r)) :
    x.length ≤ size - 1 ∧ ∀ b ∈ x, b ≠ 0 ∧ b ≠ 10 := by
  have h0 := secureInput_ne_zero h
  unfold secureInput fgets at h
  split at h
  · simp at h
  · rename_i buf rest hf
    split at hf
    · simp at hf
    · simp only [Option.some.injEq] at hf
      simp only [Option.some.injEq, Prod.mk.injEq] at h
      have hbuf : buf = (fgetsAux (size - 1) s).1 := by rw [hf]
      constructor
      · rw [← h.1]
        calc ((cstr buf).takeWhile _).length ≤ (cstr buf).length :=
              (List.takeWhile_sublist _).length_le
          _ ≤ buf.length := (List.takeWhile_sublist _).length_le
          _ ≤ size - 1 := by rw [hbuf]; exact fgetsAux_length _ _
      · intro b hb
        refine ⟨h0 b hb, ?_⟩
        rw [← h.1] at hb
        simpa using List.mem_takeWhile_imp hb

/-- A line that fits the buffer is read as it was typed: the hypotheses of the
form `secureInput size stdin = some (x, rest)` used below hold for every string
`x` without NUL and newline that is at most `size - 2` bytes long. -/
theorem secureInput_line (size : Nat) (l rest : List Nat)
    (hl : ∀ b ∈ l, b ≠ 0 ∧ b ≠ 10) (hs : l.length + 2 ≤ size) :
    secureInput size (l ++ 10 :: rest) = some (l, rest) := by
  have h1 := fgetsAux_line (size - 1) l rest (fun b hb => (hl b hb).2) (by omega)
  have h2 : cstr (l ++ [10]) = l ++ [10] := by
    unfold cstr
    apply List.takeWhile_eq_self_iff.mpr
    intro b hb
    rcases List.mem_append.mp hb with hb | hb
    · simpa using (hl b hb).1
    · simp at hb; simp [hb]
  have h3 : (l ++ [10]).takeWhile (fun b => decide (b ≠ 10)) = l := by
    rw [List.takeWhile_append_of_pos (fun b hb => by simpa using (hl b hb).2)]
    simp
  simp only [secureInput, fgets, List.append_eq_nil, List.cons_ne_nil, and_false, if_false,
    h1, h2, h3]

/-! ## Decimal output -/

theorem utoaAux_digits (f n : Nat) (acc : List Nat) (hacc : ∀ d ∈ acc, 48 ≤ d ∧ d ≤ 57) :
    ∀ d ∈ utoaAux f n acc, 48 ≤ d ∧ d ≤ 57 := by
  induction f generalizing n acc with
  | zero => simpa [utoaAux] using hacc
  | succ f ih =>
    unfold utoaAux
    split
    · intro d hd
      rcases List.mem_cons.mp hd with rfl | hd
      · omega
      · exact hacc d hd
    · apply ih
      intro d hd
      rcases List.mem_cons.mp hd with rfl | hd
      · omega
      · exact hacc d hd

theorem utoaAux_length (f n : Nat) (acc : List Nat) :
    (utoaAux f n acc).length ≤ acc.length + f := by
  induction f generalizing n acc with
  | zero => simp [utoaAux]
  | succ f ih =>
    unfold utoaAux
    split
    · simp
    · have := ih (n / 10) ((48 + n % 10) :: acc)
      simp only [List.length_cons] at this
      omega

theorem utoaAux_ne_nil (f n : Nat) (acc : List Nat) (h : acc ≠ [] ∨ 0 < f) :
    utoaAux f n acc ≠ [] := by
  induction f generalizing n acc with
  | zero =>
    rcases h with h | h
    · simpa [utoaAux] using h
    · omega
  | succ f ih =>
    unfold utoaAux
    split
    · simp
    · exact ih _ _ (Or.inl (by simp))

theorem utoa_props (n : Nat) :
    utoa n ≠ [] ∧ (utoa n).length ≤ 10 ∧ ∀ d ∈ utoa n, 48 ≤ d ∧ d ≤ 57 :=
  ⟨utoaAux_ne_nil 10 n [] (Or.inr (by decide)),
   by simpa using utoaAux_length 10 n [],
   utoaAux_digits 10 n [] (by simp)⟩

/-! ## Nodes built by `addEntry` keep the layout -/

theorem strcpy_length (dst src : List Nat) (h : src.length + 1 ≤ dst.length) :
    (strcpy dst src).length = dst.length := by
  simp only [strcpy, List.length_append, List.length_cons, List.length_drop]
  omega

/-- The node that `addEntry` links has the sizes of a `struct Node` when the
block from `malloc` has them and the amount is a 64-bit pattern: the strings
read by `secureInput` fit their arrays with their terminator. -/
theorem new_node_wf (blk : Node) (hblk : blk.WF) (stdin date category s1 s2 s3 : List Nat)
    (amount : Nat) (ha : amount < 2 ^ 64)
    (hdate : secureInput MAX_DATE_LEN stdin = some (date, s1))
    (hcat : secureInput MAX_CATEGORY_LEN s2 = some (category, s3)) :
    Node.WF { blk with date := strcpy blk.date date,
                       category := strcpy blk.category category,
                       amount := amount } := by
  obtain ⟨h1, h2, -, h4, h5⟩ := hblk
  have hd := (secureInput_props hdate).1
  have hc := (secureInput_props hcat).1
  simp only [MAX_DATE_LEN, MAX_CATEGORY_LEN] at hd hc h1 h4
  refine ⟨?_, h2, ha, ?_, h5⟩
  · simp only [MAX_DATE_LEN]
    rw [strcpy_length _ _ (by omega)]
    exact h1
  · simp only [MAX_CATEGORY_LEN]
    rw [strcpy_length _ _ (by omega)]
    exact h4

/-! ## Parsing a line of the credential file -/

theorem isSpace_digit {d : Nat} (h : 48 ≤ d ∧ d ≤ 57) : isSpace d = false := by
  simp only [isSpace, Bool.or_eq_false_iff, decide_eq_false_iff_not]
  omega

theorem cstr_eq_self (l : List Nat) (h : ∀ b ∈ l, b ≠ 0) : cstr l = l := by
  unfold cstr
  exact List.takeWhile_eq_self_iff.mpr (fun b hb => by simpa using h b hb)

theorem cstr_append (l rest : List Nat) (h : ∀ b ∈ l, b ≠ 0) :
    cstr (l ++ rest) = l ++ cstr rest := by
  unfold cstr
  exact List.takeWhile_append_of_pos (fun b hb => by simpa using h b hb)

theorem user_field (un rest : List Nat) (hc : ∀ b ∈ un, b ≠ 58) (h0 : ∀ b ∈ un, b ≠ 0)
    (hl : un.length ≤ 31) :
    ((cstr (un ++ 58 :: rest)).takeWhile (fun b => b ≠ 58)).take 31 = un ∧
    (cstr (un ++ 58 :: rest)).drop un.length = 58 :: cstr rest := by
  have h1 : cstr (un ++ 58 :: rest) = un ++ 58 :: cstr rest := by
    rw [cstr_append un _ h0]
    simp [cstr, List.takeWhile_cons]
  rw [h1]
  constructor
  · rw [List.takeWhile_append_of_pos (fun b hb => by simpa using hc b hb)]
    simp [List.takeWhile_cons, List.take_of_length_le hl]
  · exact List.drop_left' rfl

theorem sscanf_user_eq (un rest su sh : List Nat) (hc : ∀ b ∈ un, b ≠ 58)
    (h0 : ∀ b ∈ un, b ≠ 0) (hl : un.length ≤ 31)
    (h : sscanfCredential (un ++ 58 :: rest) = some (su, sh)) : su = un := by
  obtain ⟨hu, hd⟩ := user_field un rest hc h0 hl
  unfold sscanfCredential at h
  simp only [hu, hd] at h
  split_ifs at h
  simp only [Option.some.injEq, Prod.mk.injEq] at h
  exact h.1.symm

theorem sscanf_user_no_colon (line su sh : List Nat)
    (h : sscanfCredential line = some (su, sh)) : ∀ b ∈ su, b ≠ 58 := by
  unfold sscanfCredential at h
  simp only at h
  split at h
  · simp at h
  · split at h
    · split at h
      · simp at h
      · simp only [Option.some.injEq, Prod.mk.injEq] at h
        intro b hb
        rw [← h.1] at hb
        have hb1 := (List.take_sublist _ _).subset hb
        simpa using List.mem_takeWhile_imp hb1
    · simp at h

theorem sscanf_line (un hs : List Nat) (hne : un ≠ []) (hc : ∀ b ∈ un, b ≠ 58)
    (h0 : ∀ b ∈ un, b ≠ 0) (hl : un.length ≤ 31)
    (hh : hs ≠ []) (hhl : hs.length ≤ 31) (hd : ∀ d ∈ hs, 48 ≤ d ∧ d ≤ 57) :
    sscanfCredential (un ++ 58 :: hs ++ [10]) = some (un, hs) := by
  have e : un ++ 58 :: hs ++ [10] = un ++ 58 :: (hs ++ [10]) := by simp
  obtain ⟨hu, hdrop⟩ := user_field un (hs ++ [10]) hc h0 hl
  have hz : ∀ b ∈ hs ++ [10], b ≠ 0 := by
    intro b hb
    rcases List.mem_append.mp hb with hb | hb
    · have := hd b hb; omega
    · simp at hb; omega
  have hcs : cstr (hs ++ [10]) = hs ++ [10] := cstr_eq_self _ hz
  obtain ⟨d, ds, rfl⟩ := List.exists_cons_of_ne_nil hh
  have hdsp : isSpace d = false := isSpace_digit (hd d (List.mem_cons_self _ _))
  have hdw : (d :: ds ++ [10]).dropWhile isSpace = d :: ds ++ [10] := by
    simp [List.dropWhile_cons, hdsp]
  have htw : (d :: ds ++ [10]).takeWhile (fun b => !isSpace b) = d :: ds := by
    have : ((d :: ds) ++ [10]).takeWhile (fun b => !isSpace b)
        = (d :: ds) ++ [10].takeWhile (fun b => !isSpace b) :=
      List.takeWhile_append_of_pos (fun b hb => by simp [isSpace_digit (hd b hb)])
    rw [this]
    simp [List.takeWhile_cons, isSpace]
  rw [e]
  unfold sscanfCredential
  simp only [hu, hdrop, hcs, hne, if_false, hdw, htw, List.take_of_length_le hhl]
  simp

theorem hashPassword_props (sc : Bool) (p : List Nat) :
    hashPassword sc p ≠ [] ∧ (hashPassword sc p).length ≤ 10 ∧
    ∀ d ∈ hashPassword sc p, 48 ≤ d ∧ d ≤ 57 :=
  utoa_props _

/-! ## The credential file -/

theorem sscanf_user_ne_nil (line su sh : List Nat)
    (h : sscanfCredential line = some (su, sh)) : su ≠ [] := by
  unfold sscanfCredential at h
  simp only at h
  split at h
  · simp at h
  · rename_i hne
    split at h
    · split at h
      · simp at h
      · simp only [Option.some.injEq, Prod.mk.injEq] at h
        rw [← h.1]
        exact hne
    · simp at h

theorem credentialLine_newline {sc : Bool} (un pw : List Nat) :
    credentialLine sc un pw ++ [10] = un ++ 58 :: (hashPassword sc pw ++ [10]) := by
  simp [credentialLine]

theorem credentialLine_props (sc : Bool) (un pw : List Nat) (hl : un.length ≤ 31)
    (hb : ∀ b ∈ un, b ≠ 0 ∧ b ≠ 10) :
    (∀ b ∈ credentialLine sc un pw, b ≠ 10) ∧
    (credentialLine sc un pw).length < MAX_LINE_LEN - 1 := by
  obtain ⟨-, h10, hd⟩ := hashPassword_props sc pw
  constructor
  · intro b hb1
    simp only [credentialLine, List.mem_append, List.mem_cons] at hb1
    rcases hb1 with h | rfl | h
    · exact (hb b h).2
    · decide
    · have := hd b h; omega
  · simp only [credentialLine, List.length_append, List.length_cons, MAX_LINE_LEN]
    omega

theorem joinLines_append (ls : List (List Nat)) (l : List Nat) :
    joinLines (ls ++ [l]) = joinLines ls ++ (l ++ [10]) := by
  induction ls with
  | nil => simp [joinLines]
  | cons x xs ih => simp [joinLines, ih]

theorem joinLines_length (ls : List (List Nat)) : ls.length ≤ (joinLines ls).length := by
  induction ls with
  | nil => simp
  | cons x xs ih => simp only [joinLines, List.length_cons, List.length_append]; omega

theorem registerUser_some {sc : Bool} {s r : List Nat} {fs fs1 : FileSystem}
    (h : registerUser sc s fs = some (r, fs1)) :
    ∃ un pw s1, secureInput MAX_USERNAME_LEN s = some (un, s1) ∧
      secureInput MAX_PASSWORD_LEN s1 = some (pw, r) ∧
      fs1 = fs.write USER_FILE ((fs USER_FILE).getD [] ++ (credentialLine sc un pw ++ [10])) := by
  unfold registerUser at h
  split at h
  · simp at h
  · rename_i un s1 hu
    split at h
    · simp at h
    · rename_i pw s2 hp
      simp only [Option.some.injEq, Prod.mk.injEq] at h
      obtain ⟨rfl, rfl⟩ := h
      exact ⟨un, pw, s1, hu, hp, by simp [credentialLine]⟩

/-- The credential file after a series of `registerUser` calls is the old
content followed by one line per successful call. -/
theorem registerAll_lines (sc : Bool) (inputs : List (List Nat)) (fs : FileSystem) :
    ∃ ls : List (List Nat × List Nat),
      ((registerAll sc inputs fs) USER_FILE).getD [] =
        (fs USER_FILE).getD [] ++ joinLines (ls.map (fun x => credentialLine sc x.1 x.2)) ∧
      (∀ x ∈ ls, ∃ s ∈ inputs, usernameRead s = some x.1) ∧
      (∀ x ∈ ls, x.1.length ≤ 31 ∧ ∀ b ∈ x.1, b ≠ 0 ∧ b ≠ 10) := by
  induction inputs generalizing fs with
  | nil => exact ⟨[], by simp [registerAll, joinLines], by simp, by simp⟩
  | cons s ss ih =>
    have hstep : registerAll sc (s :: ss) fs = registerAll sc ss
        (match registerUser sc s fs with
          | some (_, fs1) => fs1
          | none => fs) := by
      simp [registerAll]
    rw [hstep]
    cases hreg : registerUser sc s fs with
    | none =>
      obtain ⟨ls, h1, h2, h3⟩ := ih fs
      exact ⟨ls, h1, fun x hx => by
        obtain ⟨t, ht, he⟩ := h2 x hx
        exact ⟨t, List.mem_cons_of_mem _ ht, he⟩, h3⟩
    | some res =>
      obtain ⟨r, fs1⟩ := res
      obtain ⟨un, pw, s1, hu, hp, rfl⟩ := registerUser_some hreg
      obtain ⟨ls, h1, h2, h3⟩ := ih (fs.write USER_FILE
        ((fs USER_FILE).getD [] ++ (credentialLine sc un pw ++ [10])))
      refine ⟨(un, pw) :: ls, ?_, ?_, ?_⟩
      · simp only [] at h1 ⊢
        rw [h1]
        simp [FileSystem.write, joinLines]
      · intro x hx
        rcases List.mem_cons.mp hx with rfl | hx
        · exact ⟨s, List.mem_cons_self _ _, by simp [usernameRead, hu]⟩
        · obtain ⟨t, ht, he⟩ := h2 x hx
          exact ⟨t, List.mem_cons_of_mem _ ht, he⟩
      · intro x hx
        rcases List.mem_cons.mp hx with rfl | hx
        · have := secureInput_props hu
          simpa [MAX_USERNAME_LEN] using this
        · exact h3 x hx

theorem loginLoop_step (sc : Bool) (u h : List Nat) (fuel : Nat) (un pw rest : List Nat)
    (hl : un.length ≤ 31) (hb : ∀ b ∈ un, b ≠ 0 ∧ b ≠ 10) :
    loginLoop u h (fuel + 1) (credentialLine sc un pw ++ 10 :: rest) =
      match sscanfCredential (credentialLine sc un pw ++ [10]) with
      | some (storedUser, storedHash) =>
        if u = storedUser ∧ h = storedHash then 1 else loginLoop u h fuel rest
      | none => loginLoop u h fuel rest := by
  obtain ⟨h1, h2⟩ := credentialLine_props sc un pw hl hb
  rw [loginLoop, fgets_line _ rest h1 h2]

theorem loginLoop_nil (u h : List Nat) (fuel : Nat) : loginLoop u h fuel [] = 0 := by
  cases fuel <;> simp [loginLoop, fgets]

theorem loginLoop_absent (sc : Bool) (u h : List Nat) (ls : List (List Nat × List Nat))
    (hgood : ∀ x ∈ ls, x.1.length ≤ 31 ∧ ∀ b ∈ x.1, b ≠ 0 ∧ b ≠ 10)
    (hdiff : ∀ x ∈ ls, x.1 ≠ u ∧ ∀ b ∈ x.1, b ≠ 58) (fuel : Nat) :
    loginLoop u h fuel (joinLines (ls.map (fun x => credentialLine sc x.1 x.2))) = 0 := by
  induction ls generalizing fuel with
  | nil => simpa [joinLines] using loginLoop_nil u h fuel
  | cons x xs ih =>
    cases fuel with
    | zero => rfl
    | succ f =>
      obtain ⟨hl, hb⟩ := hgood x (List.mem_cons_self _ _)
      obtain ⟨hne, hc⟩ := hdiff x (List.mem_cons_self _ _)
      have ih1 := ih (fun y hy => hgood y (List.mem_cons_of_mem _ hy))
        (fun y hy => hdiff y (List.mem_cons_of_mem _ hy)) f
      simp only [List.map_cons, joinLines]
      rw [loginLoop_step sc u h f x.1 x.2 _ hl hb]
      cases hs : sscanfCredential (credentialLine sc x.1 x.2 ++ [10]) with
      | none => simpa using ih1
      | some res =>
        obtain ⟨su, sh⟩ := res
        rw [credentialLine_newline] at hs
        have hsu := sscanf_user_eq x.1 _ su sh hc (fun b hb1 => (hb b hb1).1) hl hs
        have hne1 : ¬(u = su ∧ h = sh) := fun hh => hne (hsu ▸ hh.1.symm)
        simpa [hne1] using ih1

theorem loginLoop_found (sc : Bool) (u p : List Nat) (ls : List (List Nat × List Nat))
    (hgood : ∀ x ∈ ls, x.1.length ≤ 31 ∧ ∀ b ∈ x.1, b ≠ 0 ∧ b ≠ 10)
    (hul : u.length ≤ 31) (hub : ∀ b ∈ u, b ≠ 0 ∧ b ≠ 10)
    (hne : u ≠ []) (hc : ∀ b ∈ u, b ≠ 58) (fuel : Nat) (hf : ls.length + 1 ≤ fuel) :
    loginLoop u (hashPassword sc p) fuel
      (joinLines (ls.map (fun x => credentialLine sc x.1 x.2)) ++ (credentialLine sc u p ++ [10]))
      = 1 := by
  induction ls generalizing fuel with
  | nil =>
    obtain ⟨f, rfl⟩ : ∃ f, fuel = f + 1 := ⟨fuel - 1, by omega⟩
    obtain ⟨hh, hhl, hd⟩ := hashPassword_props sc p
    have hs := sscanf_line u (hashPassword sc p) hne hc (fun b hb => (hub b hb).1) hul hh
      (by omega) hd
    have e : credentialLine sc u p ++ [10] = u ++ 58 :: hashPassword sc p ++ [10] := by
      simp [credentialLine]
    have := loginLoop_step sc u (hashPassword sc p) f u p [] hul hub
    simp only [List.map_nil, joinLines, List.nil_append]
    rw [this, e, hs]
    simp
  | cons x xs ih =>
    obtain ⟨f, rfl⟩ : ∃ f, fuel = f + 1 := ⟨fuel - 1, by omega⟩
    obtain ⟨hl, hb⟩ := hgood x (List.mem_cons_self _ _)
    have ih1 := ih (fun y hy => hgood y (List.mem_cons_of_mem _ hy)) f
      (by simp only [List.length_cons] at hf; omega)
    simp only [List.map_cons, joinLines, List.append_assoc, List.cons_append]
    rw [loginLoop_step sc u (hashPassword sc p) f x.1 x.2 _ hl hb]
    simp only [List.append_assoc] at ih1
    cases hs : sscanfCredential (credentialLine sc x.1 x.2 ++ [10]) with
    | none => simpa using ih1
    | some res =>
      obtain ⟨su, sh⟩ := res
      by_cases hm : u = su ∧ hashPassword sc p = sh
      · simp [hm]
      · simpa [hm] using ih1

/-! ## Registering and logging in -/

/-- C2 (as stated): a user registered with the empty user name cannot log in,
because `%31[^:]` does not match an empty field. -/
theorem empty_username_cannot_login :
    usernameRead emptyNameSecret = some [] ∧
    (registerUser true emptyNameSecret noFiles).map (fun r => r.2 USER_FILE)
      = some (some (58 :: hashPassword true [115, 101, 99, 114, 101, 116] ++ [10])) ∧
    (registerUser true emptyNameSecret noFiles).bind
        (fun r => loginUser true emptyNameSecret r.2)
      = some (0, []) := by
  decide

/-- C2 (amended): after any series of `registerUser` calls on a credential
file that did not exist before, when `registerUser` reads a non-empty user
name without a colon and a password, a `loginUser` call that reads the same
user name and password returns 1. -/
theorem register_then_login (sc : Bool) (inputs : List (List Nat)) (fs0 : FileSystem)
    (hfs0 : fs0 USER_FILE = none) (s s1 s2 t t1 t2 u p : List Nat)
    (hsu : secureInput MAX_USERNAME_LEN s = some (u, s1))
    (hsp : secureInput MAX_PASSWORD_LEN s1 = some (p, s2))
    (htu : secureInput MAX_USERNAME_LEN t = some (u, t1))
    (htp : secureInput MAX_PASSWORD_LEN t1 = some (p, t2))
    (hne : u ≠ []) (hc : ∀ b ∈ u, b ≠ 58) :
    ∃ fs1, registerUser sc s (registerAll sc inputs fs0) = some (s2, fs1) ∧
      loginUser sc t fs1 = some (1, t2) := by
  obtain ⟨ls, hfile, -, hgood⟩ := registerAll_lines sc inputs fs0
  simp only [hfs0, Option.getD_none, List.nil_append] at hfile
  have hu := secureInput_props hsu
  simp only [MAX_USERNAME_LEN, Nat.add_one_sub_one, Nat.reduceSub] at hu
  have hreg : registerUser sc s (registerAll sc inputs fs0) = some (s2,
      (registerAll sc inputs fs0).write USER_FILE
        ((registerAll sc inputs fs0 USER_FILE).getD [] ++
          (u ++ 58 :: hashPassword sc p ++ [10]))) := by
    simp only [registerUser, hsu, hsp]
  refine ⟨_, hreg, ?_⟩
  simp only [loginUser, htu, htp, FileSystem.write, if_true, hfile]
  have e : u ++ 58 :: hashPassword sc p ++ [10] = credentialLine sc u p ++ [10] := by
    simp [credentialLine]
  rw [e, loginLoop_found sc u p ls hgood hu.1 hu.2 hne hc _ ?_]
  have := joinLines_length (ls.map (fun x => credentialLine sc x.1 x.2))
  simp only [List.length_map] at this
  simp only [List.length_append, List.length_cons, List.length_nil]
  omega

theorem register_then_login_witness :
    noFiles USER_FILE = none ∧
    secureInput MAX_USERNAME_LEN aliceSecret
      = some ([97, 108, 105, 99, 101], [115, 101, 99, 114, 101, 116, 10]) ∧
    secureInput MAX_PASSWORD_LEN [115, 101, 99, 114, 101, 116, 10]
      = some ([115, 101, 99, 114, 101, 116], []) ∧
    [97, 108, 105, 99, 101] ≠ [] ∧
    (∀ b ∈ [97, 108, 105, 99, 101], b ≠ 58) ∧
    (∃ fs1, registerUser true aliceSecret (registerAll true [carolPw, aliceWrong] noFiles)
        = some ([], fs1) ∧
      loginUser true aliceSecret fs1 = some (1, [])) :=
  ⟨rfl, by decide, by decide, by decide, by decide,
    register_then_login true [carolPw, aliceWrong] noFiles rfl aliceSecret
      [115, 101, 99, 114, 101, 116, 10] [] aliceSecret [115, 101, 99, 114, 101, 116, 10] []
      [97, 108, 105, 99, 101] [115, 101, 99, 114, 101, 116]
      (by decide) (by decide) (by decide) (by decide) (by decide) (by decide)⟩

/-- C9 (as stated): the passwords `aa` and `b@` are different and have the
same checksum, so after registering `alice` with `aa` the login of `alice`
with `b@` returns 1. -/
theorem colliding_password_accepted :
    ([97, 97] : List Nat) ≠ [98, 64] ∧
    (registerUser true aliceAa noFiles).bind (fun r => loginUser true aliceBAt r.2)
      = some (1, []) := by
  decide

/-- C9 (amended): on an empty credential store, after `registerUser` reads a
user name and a password, a `loginUser` call that reads the same user name and
a password with a different checksum returns 0. -/
theorem wrong_checksum_rejected (sc : Bool) (fs0 : FileSystem)
    (hfs0 : (fs0 USER_FILE).getD [] = []) (s s1 s2 t t1 t2 u p q : List Nat)
    (hsu : secureInput MAX_USERNAME_LEN s = some (u, s1))
    (hsp : secureInput MAX_PASSWORD_LEN s1 = some (p, s2))
    (htu : secureInput MAX_USERNAME_LEN t = some (u, t1))
    (htq : secureInput MAX_PASSWORD_LEN t1 = some (q, t2))
    (hdiff : hashPassword sc q ≠ hashPassword sc p) :
    ∃ fs1, registerUser sc s fs0 = some (s2, fs1) ∧ loginUser sc t fs1 = some (0, t2) := by
  have hu := secureInput_props hsu
  simp only [MAX_USERNAME_LEN, Nat.add_one_sub_one, Nat.reduceSub] at hu
  have hreg : registerUser sc s fs0 = some (s2,
      fs0.write USER_FILE
        ((fs0 USER_FILE).getD [] ++ (u ++ 58 :: hashPassword sc p ++ [10]))) := by
    simp only [registerUser, hsu, hsp]
  refine ⟨_, hreg, ?_⟩
  simp only [loginUser, htu, htq, FileSystem.write, if_true, hfs0, List.nil_append]
  have e : u ++ 58 :: hashPassword sc p ++ [10] = credentialLine sc u p ++ 10 :: [] := by
    simp [credentialLine]
  rw [e]
  obtain ⟨f, hf⟩ : ∃ f, (credentialLine sc u p ++ 10 :: []).length = f + 1 :=
    ⟨(credentialLine sc u p).length, by simp⟩
  rw [hf, loginLoop_step sc u (hashPassword sc q) f u p [] hu.1 hu.2]
  cases hs : sscanfCredential (credentialLine sc u p ++ [10]) with
  | none => simp [loginLoop_nil]
  | some res =>
    obtain ⟨su, sh⟩ := res
    have hno : ¬(u = su ∧ hashPassword sc q = sh) := by
      rintro ⟨rfl, rfl⟩
      have hc := sscanf_user_no_colon _ _ _ hs
      have hne := sscanf_user_ne_nil _ _ _ hs
      obtain ⟨hh, hhl, hd⟩ := hashPassword_props sc p
      have hl := sscanf_line u (hashPassword sc p) hne hc (fun b hb => (hu.2 b hb).1) hu.1 hh
        (by omega) hd
      have e2 : credentialLine sc u p ++ [10] = u ++ 58 :: hashPassword sc p ++ [10] := by
        simp [credentialLine]
      rw [e2, hl] at hs
      simp only [Option.some.injEq, Prod.mk.injEq, true_and] at hs
      exact hdiff hs.symm
    simp [hno, loginLoop_nil]

theorem wrong_checksum_rejected_witness :
    (noFiles USER_FILE).getD [] = [] ∧
    secureInput MAX_USERNAME_LEN aliceSecret
      = some ([97, 108, 105, 99, 101], [115, 101, 99, 114, 101, 116, 10]) ∧
    secureInput MAX_PASSWORD_LEN [115, 101, 99, 114, 101, 116, 10]
      = some ([115, 101, 99, 114, 101, 116], []) ∧
    secureInput MAX_USERNAME_LEN aliceWrong
      = some ([97, 108, 105, 99, 101], [119, 114, 111, 110, 103, 10]) ∧
    secureInput MAX_PASSWORD_LEN [119, 114, 111, 110, 103, 10]
      = some ([119, 114, 111, 110, 103], []) ∧
    hashPassword true [119, 114, 111, 110, 103] ≠ hashPassword true [115, 101, 99, 114, 101, 116] ∧
    (∃ fs1, registerUser true aliceSecret noFiles = some ([], fs1) ∧
      loginUser true aliceWrong fs1 = some (0, [])) :=
  ⟨rfl, by decide, by decide, by decide, by decide, by decide,
    wrong_checksum_rejected true noFiles rfl aliceSecret [115, 101, 99, 114, 101, 116, 10] []
      aliceWrong [119, 114, 111, 110, 103, 10] [] [97, 108, 105, 99, 101]
      [115, 101, 99, 114, 101, 116] [119, 114, 111, 110, 103]
      (by decide) (by decide) (by decide) (by decide) (by decide)⟩

/-- C10 (as stated): the only registered user name is `bob:177670 x`, which
has no line break and differs from `bob`, yet the login of `bob` with the
password `a` (checksum 177670) returns 1. -/
theorem colon_in_registered_name_admits_unknown_user :
    usernameRead colonNameZz = some [98, 111, 98, 58, 49, 55, 55, 54, 55, 48, 32, 120] ∧
    usernameRead bobA = some [98, 111, 98] ∧
    ([98, 111, 98, 58, 49, 55, 55, 54, 55, 48, 32, 120] : List Nat) ≠ [98, 111, 98] ∧
    (∀ b ∈ [98, 111, 98, 58, 49, 55, 55, 54, 55, 48, 32, 120], b ≠ 10 ∧ b ≠ 13) ∧
    loginUser true bobA (registerAll true [colonNameZz] noFiles) = some (1, []) := by
  decide

/-- C10 (amended): when `loginUser` reads a user name and a password, it
returns 0 if the credential file does not exist, and also if the file was
built only by `registerUser` calls whose user names contain no colon and all
differ from the one read. -/
theorem unknown_user_rejected (sc : Bool) (t t1 t2 u p : List Nat)
    (htu : secureInput MAX_USERNAME_LEN t = some (u, t1))
    (htp : secureInput MAX_PASSWORD_LEN t1 = some (p, t2)) :
    (∀ fs : FileSystem, fs USER_FILE = none → loginUser sc t fs = some (0, t2)) ∧
    (∀ (inputs : List (List Nat)) (fs0 : FileSystem), fs0 USER_FILE = none →
      (∀ s ∈ inputs, ∀ v, usernameRead s = some v → v ≠ u ∧ ∀ b ∈ v, b ≠ 58) →
      loginUser sc t (registerAll sc inputs fs0) = some (0, t2)) := by
  constructor
  · intro fs hfs
    simp only [loginUser, htu, htp, hfs]
  · intro inputs fs0 hfs0 hdiff
    obtain ⟨ls, hfile, hfrom, hgood⟩ := registerAll_lines sc inputs fs0
    simp only [hfs0, Option.getD_none, List.nil_append] at hfile
    simp only [loginUser, htu, htp]
    cases hf : registerAll sc inputs fs0 USER_FILE with
    | none => rfl
    | some file =>
      rw [hf] at hfile
      simp only [Option.getD_some] at hfile
      have hd : ∀ x ∈ ls, x.1 ≠ u ∧ ∀ b ∈ x.1, b ≠ 58 := by
        intro x hx
        obtain ⟨s, hs, hr⟩ := hfrom x hx
        exact hdiff s hs x.1 hr
      simp only [hfile, loginLoop_absent sc u (hashPassword sc p) ls hgood hd]

theorem unknown_user_rejected_witness :
    secureInput MAX_USERNAME_LEN bobA = some ([98, 111, 98], [97, 10]) ∧
    secureInput MAX_PASSWORD_LEN [97, 10] = some ([97], []) ∧
    noFiles USER_FILE = none ∧
    (∀ s ∈ [aliceSecret, carolPw], ∀ v, usernameRead s = some v →
      v ≠ [98, 111, 98] ∧ ∀ b ∈ v, b ≠ 58) ∧
    loginUser true bobA noFiles = some (0, []) ∧
    loginUser true bobA (registerAll true [aliceSecret, carolPw] noFiles) = some (0, []) :=
  ⟨by decide, by decide, rfl, by decide,
    (unknown_user_rejected true bobA [97, 10] [] [98, 111, 98] [97] (by decide) (by decide)).1
      noFiles rfl,
    (unknown_user_rejected true bobA [97, 10] [] [98, 111, 98] [97] (by decide) (by decide)).2
      [aliceSecret, carolPw] noFiles rfl (by decide)⟩

/-! ## The loops end before their fuel -/

theorem fgetsAux_rest_le (k : Nat) (s : List Nat) : (fgetsAux k s).2.length ≤ s.length := by
  induction k generalizing s with
  | zero => simp [fgetsAux]
  | succ k ih =>
    cases s with
    | nil => simp [fgetsAux]
    | cons b s =>
      by_cases hb : b = 10
      · simp [fgetsAux, hb]
      · simp only [fgetsAux, hb, if_false, List.length_cons]
        exact Nat.le_succ_of_le (ih s)

theorem fgets_consumes {file line rest : List Nat}
    (h : fgets MAX_LINE_LEN file = some (line, rest)) : rest.length < file.length := by
  unfold fgets at h
  split at h
  · simp at h
  · simp only [Option.some.injEq] at h
    cases file with
    | nil => simp at *
    | cons b s =>
      have hr : rest = (fgetsAux (MAX_LINE_LEN - 1) (b :: s)).2 := by rw [h]
      rw [hr]
      by_cases hb : b = 10
      · simp [MAX_LINE_LEN, fgetsAux, hb]
      · simp only [MAX_LINE_LEN, Nat.add_one_sub_one, Nat.reduceSub, fgetsAux, hb, if_false,
          List.length_cons]
        exact Nat.lt_succ_of_le (fgetsAux_rest_le _ s)

/-- More fuel than the length of the file does not change what the loop of
`loginUser` returns. -/
theorem loginLoop_fuel (u h file : List Nat) (fuel : Nat) (hf : file.length ≤ fuel) :
    loginLoop u h fuel file = loginLoop u h file.length file := by
  induction fuel using Nat.strong_induction_on generalizing file with
  | _ fuel ih =>
    cases hg : fgets MAX_LINE_LEN file with
    | none =>
      have hnil : file = [] := by
        unfold fgets at hg
        split at hg
        · assumption
        · simp at hg
      subst hnil
      rw [loginLoop_nil, loginLoop_nil]
    | some res =>
      obtain ⟨line, rest⟩ := res
      have hlt := fgets_consumes hg
      obtain ⟨f, rfl⟩ : ∃ f, fuel = f + 1 := ⟨fuel - 1, by omega⟩
      obtain ⟨g, hgl⟩ : ∃ g, file.length = g + 1 := ⟨file.length - 1, by omega⟩
      rw [hgl]
      simp only [loginLoop, hg]
      rw [ih f (by omega) rest (by omega), ih g (by omega) rest (by omega)]

end FinanceTracker
